import Mathlib

/-!
# SearchServer: a shallow embedding of `src/coverage/server.go`

The handler `SearchServer` reads a dataset, checks the access token, parses the
three integer parameters, filters the rows by a substring query, sorts them with
`sort.SliceStable`, cuts a window with a slice expression and writes the result.

Modelling choices:

* a Go `string` is a sequence of bytes: `GoString = List (Fin 256)`;
* a Go `int` is a 64-bit two's-complement integer: values are `Int`, and `+`
  wraps (`addInt`);
* the HTTP request is the record of the values the handler reads from it;
* the dataset is what `ioutil.ReadFile` followed by `xml.Unmarshal` yields;
* a run of the handler either writes a response or panics (`none`).
-/

namespace Coverage

/-! ## Strings -/

/-- A Go string: an immutable sequence of bytes. -/
abbrev GoString := List (Fin 256)

/-- The string `"Id"`. -/
def strId : GoString := [73, 100]
/-- The string `"Name"`. -/
def strName : GoString := [78, 97, 109, 101]
/-- The string `"Age"`. -/
def strAge : GoString := [65, 103, 101]
/-- The string `"bad"`. -/
def strBad : GoString := [98, 97, 100]
/-- The string `" "`. -/
def strSpace : GoString := [32]

/-- Go `strings.HasPrefix(s, sub)`: `sub` is an initial segment of `s`. -/
def HasPrefix : GoString → GoString → Bool
  | _, [] => true
  | [], _ :: _ => false
  | c :: s, d :: sub => c == d && HasPrefix s sub

/-- Go `strings.Contains(s, sub)`: `sub` occurs in `s` at some byte offset. -/
def Contains : GoString → GoString → Bool
  | [], sub => HasPrefix [] sub
  | c :: s, sub => HasPrefix (c :: s) sub || Contains s sub

/-- Go `a < b` on strings: byte-wise lexicographic comparison, a proper prefix
being smaller. -/
def strLess : GoString → GoString → Bool
  | [], [] => false
  | [], _ :: _ => true
  | _ :: _, [] => false
  | c :: a, d :: b => if c < d then true else if d < c then false else strLess a b

/-! ## Integers -/

/-- Largest Go `int` (64-bit). -/
def maxInt : Int := 9223372036854775807
/-- Smallest Go `int` (64-bit). -/
def minInt : Int := -9223372036854775808

/-- Two's-complement wrap of a mathematical integer into the Go `int` range. -/
def wrapInt (x : Int) : Int := (x + 9223372036854775808) % 18446744073709551616 - 9223372036854775808

/-- Go `a + b` on `int`. -/
def addInt (a b : Int) : Int := wrapInt (a + b)

/-- Value of the decimal digit `b`, if it is one. -/
def digitVal (b : Fin 256) : Option Nat :=
  if 48 ≤ b.val ∧ b.val ≤ 57 then some (b.val - 48) else none

/-- Reads a run of decimal digits, most significant first, onto `acc`. -/
def parseDigits : GoString → Nat → Option Nat
  | [], acc => some acc
  | b :: bs, acc =>
    match digitVal b with
    | none => none
    | some d => parseDigits bs (acc * 10 + d)

/-- The digits of `strconv.Atoi` after the optional sign: at least one, all
decimal, the signed value within the `int` range. -/
def atoiDigits (neg : Bool) (ds : GoString) : Option Int :=
  match ds with
  | [] => none
  | _ :: _ =>
    match parseDigits ds 0 with
    | none => none
    | some n =>
      if minInt ≤ (if neg then -(n : Int) else (n : Int)) ∧
          (if neg then -(n : Int) else (n : Int)) ≤ maxInt then
        some (if neg then -(n : Int) else (n : Int))
      else none

/-- Go `strconv.Atoi`: an optional sign `-` or `+` followed by one or more decimal
digits, the value within the `int` range; `none` is the error result. -/
def Atoi (s : GoString) : Option Int :=
  match s with
  | [] => none
  | c :: rest =>
    if c = 45 then atoiDigits true rest
    else if c = 43 then atoiDigits false rest
    else atoiDigits false s

/-! ## Data model -/

/-- The `row` struct of `server.go`: one decoded `<row>` of the dataset. -/
structure row where
  ID : Int
  GUID : GoString
  IsActive : Bool
  Balance : GoString
  Picture : GoString
  Age : Int
  EyeColor : GoString
  FirstName : GoString
  LastName : GoString
  Gender : GoString
  Company : GoString
  Email : GoString
  Phone : GoString
  Address : GoString
  About : GoString
  Registered : GoString
  FavoriteFruit : GoString
deriving DecidableEq, Repr

/-- Modelled from the spec: the `User` struct is declared in the client file,
which is not among the sources; its five fields, in the order of the positional
literal `User{row.ID, name, row.Age, row.About, row.Gender}`, carry the names the
tests use (`Id`, `Name`, `Age`, `About`, `Gender`). -/
structure User where
  Id : Int
  Name : GoString
  Age : Int
  About : GoString
  Gender : GoString
deriving DecidableEq, Repr

/-- Modelled from the spec: the `SearchRequest` struct is declared in the client
file, which is not among the sources; the positional literal
`SearchRequest{limit, offset, query, orderField, orderBy}` and the tests give its
fields. -/
structure SearchRequest where
  Limit : Int
  Offset : Int
  Query : GoString
  OrderField : GoString
  OrderBy : Int
deriving DecidableEq, Repr

/-- What the handler reads from `*http.Request`: the `AccessToken` header and the
five form values (an absent header or parameter reads as the empty string). -/
structure Request where
  AccessToken : GoString
  limit : GoString
  offset : GoString
  order_by : GoString
  query : GoString
  order_field : GoString
deriving DecidableEq, Repr

/-- The dataset as the handler sees it: `ioutil.ReadFile(FileName)` fails
(`missing`), or it returns the bytes of a file (`file`), of which the handler
only uses what `xml.Unmarshal` makes of them: an error (`none`) or the rows. -/
inductive Dataset where
  | missing
  | file (decoded : Option (List row))
deriving DecidableEq, Repr

/-- The bytes written to the response: a literal text (`io.WriteString`) or the
JSON encoding of a record list (`w.Write(usersToJSON)`); the codec itself is not
modelled (it writes `null` for the nil slice and an array otherwise). -/
inductive Body where
  | text (s : String)
  | users (us : List User)
deriving DecidableEq, Repr

/-- An HTTP response: status code (200 unless `WriteHeader` was called) and body. -/
structure Response where
  status : Nat
  body : Body
deriving DecidableEq, Repr

/-! ## Filter stage -/

/-- The record built from a row: `name := row.FirstName + " " + row.LastName`,
`User{row.ID, name, row.Age, row.About, row.Gender}`. -/
def toUser (r : row) : User :=
  let name := r.FirstName ++ strSpace ++ r.LastName
  ⟨r.ID, name, r.Age, r.About, r.Gender⟩

/-- The `for _, row := range xmlUsers.RowMas` loop, `users` being the slice
accumulated so far. -/
def filterLoop (req : SearchRequest) : List row → List User → List User
  | [], users => users
  | r :: rest, users =>
    let name := r.FirstName ++ strSpace ++ r.LastName
    let user : User := ⟨r.ID, name, r.Age, r.About, r.Gender⟩
    if Contains r.About req.Query || Contains name req.Query || req.Query == [] then
      filterLoop req rest (users ++ [user])
    else
      filterLoop req rest users

/-- The filter stage: the loop started from the nil slice. -/
def filterStage (req : SearchRequest) (rows : List row) : List User :=
  filterLoop req rows []

/-! ## Sort stage -/

/-- Inner loop of the library insertion sort,
`for j := i; j > a && less(j, j-1); j-- { swap(j, j-1) }`:
`x` is `data[i]`, the list is the already sorted `data[a:i]` reversed (nearest
predecessor first); the result is the reversed `data[a:i+1]`. -/
def shiftIn {α : Type} (less : α → α → Bool) (x : α) : List α → List α
  | [] => [x]
  | y :: ys => if less x y then y :: shiftIn less x ys else x :: y :: ys

/-- Go `sort.SliceStable(data, less)`, with `less` given on elements. The library
runs insertion sort (`for i := a + 1; i < b; i++` around the inner loop above) on
blocks of 20 elements and merges the blocks stably; the model runs the insertion
sort on the whole slice, which is the library algorithm up to 20 elements and
yields the same (unique) stable ordering beyond. -/
def SliceStable {α : Type} (less : α → α → Bool) (data : List α) : List α :=
  (data.foldl (fun sortedRev x => shiftIn less x sortedRev) []).reverse

/-- The `switch req.OrderBy` statement: the reordered slice, or the response
written before the early `return` (`w.WriteHeader(http.StatusBadRequest)` and the
text given to `io.WriteString`). -/
def sortStage (req : SearchRequest) (users : List User) : Except Response (List User) :=
  if req.OrderBy = 0 then .ok users
  else if req.OrderBy = 1 then
    if req.OrderField = strId then
      .ok (SliceStable (fun a b => decide (a.Id < b.Id)) users)
    else if req.OrderField = [] then
      .ok (SliceStable (fun a b => strLess a.Name b.Name) users)
    else if req.OrderField = strName then
      .ok (SliceStable (fun a b => strLess a.Name b.Name) users)
    else if req.OrderField = strAge then
      .ok (SliceStable (fun a b => decide (a.Age < b.Age)) users)
    else .error ⟨400, .text "\x7b\"error\": \"ErrorBadOrderField\"\x7d"⟩
  else if req.OrderBy = -1 then
    if req.OrderField = strId then
      .ok (SliceStable (fun a b => decide (a.Id > b.Id)) users)
    else if req.OrderField = [] then
      .ok (SliceStable (fun a b => strLess b.Name a.Name) users)
    else if req.OrderField = strName then
      .ok (SliceStable (fun a b => strLess b.Name a.Name) users)
    else if req.OrderField = strAge then
      .ok (SliceStable (fun a b => decide (a.Age > b.Age)) users)
    else .error ⟨400, .text "\x7b\"error\": \"ErrorBadOrderField\"\x7d"⟩
  else .error ⟨400, .text "\x7b\"error\": \"have no such sort parameter\"\x7d"⟩

/-! ## Pagination stage -/

/-- The slice expression `users[lo:hi]`: it panics (`none`) unless
`0 <= lo <= hi <= cap(users)`. At its only call site `hi <= len(users)` has just
been tested, so the capacity never decides and the length stands for it. -/
def sliceUsers (users : List User) (lo hi : Int) : Option (List User) :=
  if 0 ≤ lo ∧ lo ≤ hi ∧ hi ≤ (users.length : Int) then
    some ((users.drop lo.toNat).take (hi - lo).toNat)
  else none

/-- The statement
`if len(users) >= req.Limit+req.Offset { users = users[req.Offset:(req.Limit + req.Offset)] }`. -/
def paginate (req : SearchRequest) (users : List User) : Option (List User) :=
  if (users.length : Int) ≥ addInt req.Limit req.Offset then
    sliceUsers users req.Offset (addInt req.Limit req.Offset)
  else some users

/-! ## The handler -/

/-- The handler after `xml.Unmarshal` succeeded: filter, sort, paginate, write. -/
def respond (req : SearchRequest) (rows : List row) : Option Response :=
  match sortStage req (filterStage req rows) with
  | .error resp => some resp
  | .ok sorted =>
    match paginate req sorted with
    | none => none
    | some page => some ⟨200, .users page⟩

/-- The handler `SearchServer(w, r)`: the response written, or `none` when the
handler panics. (`json.Marshal` cannot fail on a `[]User`, so its error branch
does not appear.) -/
def SearchServer (data : Dataset) (r : Request) : Option Response :=
  match data with
  | .missing => some ⟨400, .text "\x7b\"error\": \"no such file or directory\"\x7d"⟩
  | .file decoded =>
    if r.AccessToken = strBad then some ⟨401, .text "Bad AccessToken"⟩
    else
      match Atoi r.limit with
      | none => some ⟨400, .text "\x7b\"error\": \"no limit in request\"\x7d"⟩
      | some limit =>
        match Atoi r.offset with
        | none => some ⟨400, .text "\x7b\"error\": \"no offset in request\"\x7d"⟩
        | some offset =>
          match Atoi r.order_by with
          | none => some ⟨400, .text "\x7b\"error\": \"no order_by in request\"\x7d"⟩
          | some orderBy =>
            let req : SearchRequest := ⟨limit, offset, r.query, r.order_field, orderBy⟩
            match decoded with
            | none => some ⟨400, .text "\x7b\"error\": \"can't unpack result json\"\x7d"⟩
            | some rows => respond req rows

/-! ## Specification-side notions -/

/-- Spec: two records carry the same sort key under `orderField` (`Id` and `Age`
are integers, `""` and `Name` select the name). -/
def sameKey (orderField : GoString) (u v : User) : Bool :=
  if orderField = strId then u.Id == v.Id
  else if orderField = strAge then u.Age == v.Age
  else u.Name == v.Name

/-- Spec: ordinal comparison `a <= b` of strings. -/
def strLe (a b : GoString) : Bool := strLess a b || a == b

/-- Spec: the sort key of `u` is at most that of `v` under `orderField`. -/
def keyLe (orderField : GoString) (u v : User) : Bool :=
  if orderField = strId then decide (u.Id ≤ v.Id)
  else if orderField = strAge then decide (u.Age ≤ v.Age)
  else strLe u.Name v.Name

/-- The order fields the sort stage recognises: `""`, `"Id"`, `"Name"`, `"Age"`. -/
def orderFields : List GoString := [[], strId, strName, strAge]

/-- Spec: the query occurs in the record's name or in its biography. -/
def matchesQuery (q : GoString) (u : User) : Bool :=
  decide (q <:+: u.Name ∨ q <:+: u.About)

/-- What the claims need to know of a comparator `less` the sort stage passes to
`sort.SliceStable` for the request `req`: it is a strict weak order, it is false
exactly when the keys are in the requested order, and it is false between
records of equal key. -/
def ComparatorFor (req : SearchRequest) (less : User → User → Bool) : Prop :=
  (∀ a b, less a b = true → less b a = false) ∧
  (∀ a b c, less a b = false → less b c = false → less a c = false) ∧
  (∀ a b, less a b = false ↔
    if req.OrderBy = 1 then keyLe req.OrderField b a = true
    else keyLe req.OrderField a b = true) ∧
  (∀ u a b, sameKey req.OrderField u a = true → sameKey req.OrderField u b = true →
    less a b = false)

/-- Spec: the body has the wire shape of an error envelope,
`{"error": "<message>"}`: a text that opens with `{"error": "` and closes with
`"}`. -/
def isErrorEnvelope : Body → Bool
  | .text s =>
    List.isPrefixOf "\x7b\"error\": \"".data s.data &&
      List.isSuffixOf "\"\x7d".data s.data && decide (13 ≤ s.data.length)
  | .users _ => false

/-- The upper bound of the window the pagination stage returns for `sorted`:
`Limit + Offset` when the slice expression is evaluated, the length of the whole
sequence when it is returned as it is. -/
def windowEnd (req : SearchRequest) (sorted : List User) : Int :=
  if (sorted.length : Int) ≥ addInt req.Limit req.Offset then addInt req.Limit req.Offset
  else (sorted.length : Int)

/-- The index of `sorted` at which the window the pagination stage returns
starts: `Offset` when the slice expression is evaluated, 0 when the sequence is
returned as it is. -/
def windowStart (req : SearchRequest) (sorted : List User) : Int :=
  if (sorted.length : Int) ≥ addInt req.Limit req.Offset then req.Offset else 0

/-- Modelled from the spec: the `hasMore` flag (`NextPage` in the tests) is set
by the client file, which is not among the sources, and the server writes no
such flag. Spec §3: "hasMore is true iff the filtered-and-sorted sequence
contains at least one record beyond the returned window's upper bound". -/
def hasMore (req : SearchRequest) (sorted : List User) : Bool :=
  decide (windowEnd req sorted < (sorted.length : Int))

/-- Modelled from the spec: `SearchResponse` of spec §3, "{ users: ordered
sequence of PersonRecord, hasMore: boolean }", declared in the client file, which
is not among the sources; the fields carry the names the tests use. -/
structure SearchResponse where
  Users : List User
  NextPage : Bool
deriving DecidableEq, Repr

/-- Modelled from the spec: the response for the page the server returns from
`sorted`: the page with the `hasMore` flag. -/
def searchResponse (req : SearchRequest) (sorted page : List User) : SearchResponse :=
  ⟨page, hasMore req sorted⟩

/-! ## The client, modelled from the spec -/

/-- Modelled from the spec: the client's error values (`ClassifiedError`, spec
§3); the client file is not among the sources. The generic bad-request error
carries the message of the envelope. -/
inductive ClassifiedError where
  | Timeout
  | ServerFault
  | BadEnvelope
  | BadResultBody
  | BadAccessToken
  | BadOrderField
  | BadRequestGeneric (original : String)
  | LimitInvalid
  | OffsetInvalid
  | UnknownStatus
deriving DecidableEq, Repr

/-- Modelled from the spec: the text of each error value (spec §4.6 and §4.7),
which the tests look for in the error returned by `FindUsers`. The generic
bad-request error carries the original message (spec §3), as spec §8 requires:
"Missing dataset file → error text contains `no such file or directory`". -/
def errorText : ClassifiedError → String
  | .Timeout => "timeout"
  | .ServerFault => "SearchServer fatal error"
  | .BadEnvelope => "cant unpack error json"
  | .BadResultBody => "cant unpack result json"
  | .BadAccessToken => "Bad AccessToken"
  | .BadOrderField => "OrderFeld"
  | .BadRequestGeneric original => "unknown bad request error: " ++ original
  | .LimitInvalid => "limit must be > 0"
  | .OffsetInvalid => "offset must be > 0"
  | .UnknownStatus => "unknown error"

/-- The test of the tests on an error, `strings.Contains(err.Error(), phrase)`,
on the texts of the model. -/
def textContains (text phrase : String) : Bool :=
  decide (phrase.data <:+: text.data)

/-- Modelled from the spec: what the transport hands to the classifier (spec §1
and §4.7): a timeout, another transport failure (no response at all, as for the
client without URL of `TestUnknownErrorBadAccess`), or a status code with a
body. The codec is external, so the body is given by what it decodes to: as an
error envelope (its message, or `none` when it does not parse) and as a record
list (or `none`). -/
inductive TransportOutcome where
  | timeout
  | failure
  | reply (status : Nat) (envelope : Option String) (records : Option (List User))
deriving DecidableEq, Repr

/-- The pair `(*SearchResponse, error)` that `FindUsers` returns in the tests
(`result, err := s.FindUsers(req)`), the response given by its records; `none`
stands for `nil`. -/
structure ClientResult where
  result : Option (List User)
  error : Option ClassifiedError
deriving DecidableEq, Repr

/-- Modelled from the spec: the ErrorClassifier of spec §4.7 (the client file is
not among the sources), its nine rules in order, the first match winning. The
spec has no rule for a transport failure other than a timeout;
`TestUnknownErrorBadAccess` expects the text `unknown error` for it (a client
without URL), which is the text of the spec's `UnknownStatus`. -/
def classify : TransportOutcome → ClientResult
  | .timeout => ⟨none, some .Timeout⟩
  | .failure => ⟨none, some .UnknownStatus⟩
  | .reply status envelope records =>
    if status = 500 then ⟨none, some .ServerFault⟩
    else if status = 401 then ⟨none, some .BadAccessToken⟩
    else if status = 400 then
      match envelope with
      | none => ⟨none, some .BadEnvelope⟩
      | some msg =>
        if msg = "ErrorBadOrderField" then ⟨none, some .BadOrderField⟩
        else ⟨none, some (.BadRequestGeneric msg)⟩
    else if status = 200 then
      match records with
      | none => ⟨none, some .BadResultBody⟩
      | some users => ⟨some users, none⟩
    else ⟨none, some .UnknownStatus⟩

/-- Modelled from the spec: the RequestNormalizer of spec §4.6 (the client file
is not among the sources), in the order of the spec: it "rejects limit ≤ 0 with
LimitInvalid", "rejects offset < 0 with OffsetInvalid" and "clamps any requested
limit greater than a fixed ceiling (25) down to that ceiling". (The tests call
`FindUsers(SearchRequest{})`, whose limit is 0, and expect the answer of the
server; the definition keeps the bound as the spec words it.) -/
def normalize (req : SearchRequest) : Except ClassifiedError SearchRequest :=
  if req.Limit ≤ 0 then .error .LimitInvalid
  else if req.Offset < 0 then .error .OffsetInvalid
  else if req.Limit > 25 then .ok ⟨25, req.Offset, req.Query, req.OrderField, req.OrderBy⟩
  else .ok req

/-- Modelled from the spec: the client operation `FindUsers` (spec §2, client
side; the client file is not among the sources): normalize, hand the request to
the transport, classify the outcome. The second component lists the requests
handed to the transport, none when the request is rejected. -/
def FindUsers (transport : SearchRequest → TransportOutcome) (req : SearchRequest) :
    ClientResult × List SearchRequest :=
  match normalize req with
  | .error e => (⟨none, some e⟩, [])
  | .ok sent => (classify (transport sent), [sent])

/-- A transport whose server answers every request with status 500 and an empty
body, as the second handler of `TestServerErr`. -/
def faultyServer : SearchRequest → TransportOutcome :=
  fun _ => .reply 500 none none

/-- The filter loop as it would read without the `req.Query == ""` disjunct:
`if strings.Contains(row.About, req.Query) || strings.Contains(name, req.Query)`. -/
def filterLoopPlain (req : SearchRequest) : List row → List User → List User
  | [], users => users
  | r :: rest, users =>
    let name := r.FirstName ++ strSpace ++ r.LastName
    let user : User := ⟨r.ID, name, r.Age, r.About, r.Gender⟩
    if Contains r.About req.Query || Contains name req.Query then
      filterLoopPlain req rest (users ++ [user])
    else
      filterLoopPlain req rest users

/-- The filter stage without the special case for the empty query. -/
def filterStagePlain (req : SearchRequest) (rows : List row) : List User :=
  filterLoopPlain req rows []

/-! ## Sample data -/

/-- A row with the given id, age, first name, last name and biography, the
other columns empty. -/
def mkRow (id age : Int) (first last about : GoString) : row :=
  ⟨id, [], true, [], [], age, [], first, last, [], [], [], [], [], about, [], []⟩

/-- Three rows: `Bo W` (22, "Nu"), `H M` (21, "Sit"), `A A` (22, "V"). -/
def sampleRows : List row :=
  [mkRow 0 22 [66, 111] [87] [78, 117],
   mkRow 1 21 [72] [77] [83, 105, 116],
   mkRow 2 22 [65] [65] [86]]

/-- The records of `sampleRows`. -/
def sampleUsers : List User := sampleRows.map toUser

/-- A request without access token: `limit`, `offset`, `order_by`, `query`,
`order_field`. -/
def mkRequest (limit offset orderBy query orderField : GoString) : Request :=
  ⟨[], limit, offset, orderBy, query, orderField⟩

/-! ## Strings: lemmas -/

theorem hasPrefix_iff (s sub : GoString) : HasPrefix s sub = true ↔ sub <+: s := by
  induction s generalizing sub with
  | nil => cases sub <;> simp [HasPrefix]
  | cons c s ih =>
    cases sub with
    | nil => simp [HasPrefix]
    | cons d sub =>
      simp only [HasPrefix, Bool.and_eq_true, beq_iff_eq, ih, List.cons_prefix_cons]
      constructor
      · rintro ⟨h, h2⟩; exact ⟨h.symm, h2⟩
      · rintro ⟨h, h2⟩; exact ⟨h.symm, h2⟩

theorem contains_iff (s sub : GoString) : Contains s sub = true ↔ sub <:+: s := by
  induction s with
  | nil =>
    simp only [Contains, hasPrefix_iff]
    constructor
    · intro h; exact h.isInfix
    · intro h; rw [List.infix_nil] at h; subst h; exact List.prefix_rfl
  | cons c s ih =>
    simp only [Contains, Bool.or_eq_true, hasPrefix_iff, ih, List.infix_cons_iff]

theorem contains_empty (s : GoString) : Contains s [] = true :=
  (contains_iff s []).2 List.nil_infix

theorem strLess_irrefl (a : GoString) : strLess a a = false := by
  induction a with
  | nil => rfl
  | cons c a ih => simp [strLess, ih]

theorem strLess_asymm (a b : GoString) : strLess a b = true → strLess b a = false := by
  induction a generalizing b with
  | nil => cases b <;> simp [strLess]
  | cons c a ih =>
    cases b with
    | nil => simp [strLess]
    | cons d b =>
      simp only [strLess]
      intro h
      by_cases h1 : c < d
      · have h2 : ¬ d < c := lt_asymm h1
        simp [h1, h2]
      · by_cases h2 : d < c
        · simp [h1, h2] at h
        · simp only [h1, h2, if_false] at h ⊢
          exact ih b h

theorem strLess_trans (a b c : GoString) :
    strLess a b = true → strLess b c = true → strLess a c = true := by
  induction a generalizing b c with
  | nil => cases b <;> cases c <;> simp [strLess]
  | cons x a ih =>
    cases b with
    | nil => simp [strLess]
    | cons y b =>
      cases c with
      | nil => simp [strLess]
      | cons z c =>
        simp only [strLess]
        intro h1 h2
        rcases lt_trichotomy x y with hxy | hxy | hxy
        · rcases lt_trichotomy y z with hyz | hyz | hyz
          · simp [lt_trans hxy hyz]
          · subst hyz; simp [hxy]
          · simp [hyz, lt_asymm hyz] at h2
        · subst hxy
          rcases lt_trichotomy x z with hyz | hyz | hyz
          · simp [hyz]
          · subst hyz
            simp only [lt_irrefl, if_false] at h1 h2 ⊢
            exact ih b c h1 h2
          · simp [hyz, lt_asymm hyz] at h2
        · simp [hxy, lt_asymm hxy] at h1

theorem strLess_total (a b : GoString) :
    strLess a b = true ∨ a = b ∨ strLess b a = true := by
  induction a generalizing b with
  | nil => cases b <;> simp [strLess]
  | cons x a ih =>
    cases b with
    | nil => simp [strLess]
    | cons y b =>
      simp only [strLess]
      rcases lt_trichotomy x y with hxy | hxy | hxy
      · simp [hxy]
      · subst hxy
        simp only [lt_irrefl, if_false, List.cons.injEq, true_and]
        exact ih b
      · simp [hxy]

/-- The comparison of the model is the lexicographic order on byte sequences. -/
theorem strLess_iff_lex (a b : GoString) :
    strLess a b = true ↔ List.Lex (fun x y : Fin 256 => x < y) a b := by
  induction a generalizing b with
  | nil =>
    cases b with
    | nil => simp [strLess]
    | cons y b => simp only [strLess, true_iff]; exact List.Lex.nil
  | cons x a ih =>
    cases b with
    | nil => simp [strLess]
    | cons y b =>
      simp only [strLess]
      rcases lt_trichotomy x y with hxy | hxy | hxy
      · simp [hxy, List.Lex.rel hxy]
      · subst hxy
        simp only [lt_irrefl, if_false, ih]
        constructor
        · intro h; exact List.Lex.cons h
        · intro h
          cases h with
          | cons h => exact h
          | rel h => exact absurd h (lt_irrefl _)
      · simp only [lt_asymm hxy, hxy, if_false, if_true]
        constructor
        · intro h; cases h
        · intro h
          cases h with
          | cons h => exact absurd hxy (lt_irrefl _)
          | rel h => exact absurd h (lt_asymm hxy)

theorem strLe_iff_not_less (a b : GoString) : strLe a b = true ↔ strLess b a = false := by
  unfold strLe
  rcases strLess_total a b with h | h | h
  · simp [h, strLess_asymm a b h]
  · subst h; simp [strLess_irrefl]
  · have h2 := strLess_asymm b a h
    have hne : a ≠ b := by
      intro e; subst e; rw [strLess_irrefl] at h; exact Bool.noConfusion h
    simp [h, h2, hne]

/-! ## Filter stage: lemmas -/

theorem filterLoop_eq (req : SearchRequest) (rows : List row) (users : List User) :
    filterLoop req rows users =
      users ++ (rows.map toUser).filter
        (fun u => Contains u.About req.Query || Contains u.Name req.Query || req.Query == []) := by
  induction rows generalizing users with
  | nil => simp [filterLoop]
  | cons r rest ih =>
    simp only [filterLoop, List.map_cons, List.filter_cons, toUser]
    split
    · rw [ih]; simp
    · rw [ih]

/-! ## Sort stage: lemmas -/

section Sorting

variable {α : Type} (less : α → α → Bool)

theorem shiftIn_perm (x : α) (l : List α) : (shiftIn less x l).Perm (x :: l) := by
  induction l with
  | nil => exact List.Perm.refl _
  | cons y ys ih =>
    simp only [shiftIn]
    split
    · exact (List.Perm.cons y ih).trans (List.Perm.swap x y ys)
    · exact List.Perm.refl _

theorem foldl_shiftIn_perm (data acc : List α) :
    (data.foldl (fun sortedRev x => shiftIn less x sortedRev) acc).Perm (data ++ acc) := by
  induction data generalizing acc with
  | nil => exact List.Perm.refl _
  | cons x xs ih =>
    simp only [List.foldl_cons, List.cons_append]
    refine (ih _).trans ?_
    refine (List.Perm.append_left xs (shiftIn_perm less x acc)).trans ?_
    exact List.perm_middle

theorem SliceStable_perm (data : List α) : (SliceStable less data).Perm data := by
  unfold SliceStable
  refine (List.reverse_perm _).trans ?_
  simpa using foldl_shiftIn_perm less data []

/-- The inner loop keeps the reversed prefix sorted: no element is less than a
later one of the list (an earlier one of the slice). -/
theorem shiftIn_sorted
    (hasymm : ∀ a b, less a b = true → less b a = false)
    (hneg : ∀ a b c, less a b = false → less b c = false → less a c = false)
    (x : α) (l : List α) (hl : l.Pairwise (fun a b => less a b = false)) :
    (shiftIn less x l).Pairwise (fun a b => less a b = false) := by
  induction l with
  | nil => simp [shiftIn]
  | cons y ys ih =>
    rw [List.pairwise_cons] at hl
    simp only [shiftIn]
    split
    · rename_i hxy
      rw [List.pairwise_cons]
      refine ⟨?_, ih hl.2⟩
      intro z hz
      have hz2 := List.mem_cons.1 ((List.Perm.mem_iff (shiftIn_perm less x ys)).1 hz)
      rcases hz2 with rfl | hz2
      · exact hasymm _ _ hxy
      · exact hl.1 z hz2
    · rename_i hxy
      have hxy2 : less x y = false := by simpa using hxy
      rw [List.pairwise_cons]
      refine ⟨?_, List.pairwise_cons.2 hl⟩
      intro z hz
      simp only [List.mem_cons] at hz
      rcases hz with rfl | hz
      · exact hxy2
      · exact hneg _ _ _ hxy2 (hl.1 z hz)

theorem foldl_shiftIn_sorted
    (hasymm : ∀ a b, less a b = true → less b a = false)
    (hneg : ∀ a b c, less a b = false → less b c = false → less a c = false)
    (data acc : List α) (hacc : acc.Pairwise (fun a b => less a b = false)) :
    (data.foldl (fun sortedRev x => shiftIn less x sortedRev) acc).Pairwise
      (fun a b => less a b = false) := by
  induction data generalizing acc with
  | nil => exact hacc
  | cons x xs ih =>
    simp only [List.foldl_cons]
    exact ih _ (shiftIn_sorted less hasymm hneg x acc hacc)

/-- The result of `SliceStable` is sorted: no element is less than an earlier one. -/
theorem SliceStable_sorted
    (hasymm : ∀ a b, less a b = true → less b a = false)
    (hneg : ∀ a b c, less a b = false → less b c = false → less a c = false)
    (data : List α) :
    (SliceStable less data).Pairwise (fun a b => less b a = false) := by
  unfold SliceStable
  rw [List.pairwise_reverse]
  exact foldl_shiftIn_sorted less hasymm hneg data [] List.Pairwise.nil

/-- The inner loop does not disturb the subsequence selected by `p`, provided no
selected element is less than another selected one. -/
theorem shiftIn_filter (p : α → Bool)
    (hp : ∀ a b, p a = true → p b = true → less a b = false)
    (x : α) (l : List α) :
    (shiftIn less x l).filter p = (x :: l).filter p := by
  induction l with
  | nil => rfl
  | cons y ys ih =>
    simp only [shiftIn]
    split
    · rename_i hxy
      by_cases hy : p y = true
      · have hx : p x = false := by
          by_contra hx
          have hx2 : p x = true := by simpa using hx
          have := hp x y hx2 hy
          rw [this] at hxy
          exact Bool.noConfusion hxy
        rw [List.filter_cons_of_pos hy, ih, List.filter_cons_of_neg (by simp [hx]),
          List.filter_cons_of_neg (by simp [hx]), List.filter_cons_of_pos hy]
      · rw [List.filter_cons_of_neg hy, ih]
        by_cases hx : p x = true
        · rw [List.filter_cons_of_pos hx, List.filter_cons_of_pos hx,
            List.filter_cons_of_neg hy]
        · rw [List.filter_cons_of_neg hx, List.filter_cons_of_neg hx,
            List.filter_cons_of_neg hy]
    · rfl

theorem foldl_shiftIn_filter (p : α → Bool)
    (hp : ∀ a b, p a = true → p b = true → less a b = false)
    (data acc : List α) :
    (data.foldl (fun sortedRev x => shiftIn less x sortedRev) acc).filter p =
      (data.reverse ++ acc).filter p := by
  induction data generalizing acc with
  | nil => rfl
  | cons x xs ih =>
    simp only [List.foldl_cons, List.reverse_cons, List.append_assoc, List.singleton_append]
    rw [ih, List.filter_append, List.filter_append, shiftIn_filter less p hp]

/-- Stability of `SliceStable`: the subsequence selected by `p` is unchanged when
no selected element is less than another selected one. -/
theorem SliceStable_filter (p : α → Bool)
    (hp : ∀ a b, p a = true → p b = true → less a b = false)
    (data : List α) :
    (SliceStable less data).filter p = data.filter p := by
  unfold SliceStable
  rw [List.filter_reverse, foldl_shiftIn_filter less p hp]
  simp [List.filter_reverse]

/-- A stable sort has one possible result: two lists with the same elements,
both sorted by a strict weak order `less`, and with the same subsequence of
elements equivalent to `x` for every `x`, are equal. -/
theorem stable_sorted_unique
    (hasymm : ∀ a b, less a b = true → less b a = false)
    (l₁ l₂ : List α) (hperm : l₁.Perm l₂)
    (h₁ : l₁.Pairwise (fun a b => less b a = false))
    (h₂ : l₂.Pairwise (fun a b => less b a = false))
    (hst : ∀ x, l₁.filter (fun y => !less x y && !less y x) =
      l₂.filter (fun y => !less x y && !less y x)) :
    l₁ = l₂ := by
  have hirr : ∀ a, less a a = false := by
    intro a
    cases h : less a a with
    | false => rfl
    | true => have := hasymm a a h; rw [h] at this; exact this
  induction l₁ generalizing l₂ with
  | nil => exact (List.Perm.nil_eq hperm)
  | cons a t₁ ih =>
    cases l₂ with
    | nil => exact absurd hperm.length_eq (by simp)
    | cons b t₂ =>
      rw [List.pairwise_cons] at h₁ h₂
      have hba : less b a = false := by
        have hb : b ∈ a :: t₁ := hperm.mem_iff.2 (List.mem_cons_self _ _)
        rcases List.mem_cons.1 hb with rfl | hb
        · exact hirr _
        · exact h₁.1 b hb
      have hab : less a b = false := by
        have ha : a ∈ b :: t₂ := hperm.mem_iff.1 (List.mem_cons_self _ _)
        rcases List.mem_cons.1 ha with rfl | ha
        · exact hirr _
        · exact h₂.1 a ha
      have hhead := hst a
      simp only [List.filter_cons, hirr a, hab, hba, Bool.not_false, Bool.and_self,
        if_true] at hhead
      have hEq : a = b := (List.cons.inj hhead).1
      subst hEq
      congr 1
      refine ih t₂ (List.Perm.cons_inv hperm) h₁.2 h₂.2 ?_
      intro x
      have hx := hst x
      simp only [List.filter_cons] at hx
      split at hx
      · exact (List.cons.inj hx).2
      · exact hx

/-- The model of `sort.SliceStable` returns the one list that any stable sort by
a strict weak order has to return. -/
theorem SliceStable_unique
    (hasymm : ∀ a b, less a b = true → less b a = false)
    (hneg : ∀ a b c, less a b = false → less b c = false → less a c = false)
    (data out : List α) (hperm : out.Perm data)
    (hsorted : out.Pairwise (fun a b => less b a = false))
    (hstable : ∀ x, out.filter (fun y => !less x y && !less y x) =
      data.filter (fun y => !less x y && !less y x)) :
    out = SliceStable less data := by
  refine stable_sorted_unique less hasymm out _
    (hperm.trans (SliceStable_perm less data).symm) hsorted
    (SliceStable_sorted less hasymm hneg data) ?_
  intro x
  rw [hstable x]
  refine (SliceStable_filter less _ ?_ data).symm
  intro a b ha hb
  simp only [Bool.and_eq_true, Bool.not_eq_true'] at ha hb
  exact hneg a x b ha.2 hb.1

end Sorting

/-! ## The eight comparators of the sort stage -/

theorem strLess_negtrans (a b c : GoString) :
    strLess a b = false → strLess b c = false → strLess a c = false := by
  intro h1 h2
  by_contra h3
  have h3 : strLess a c = true := by simpa using h3
  rcases strLess_total a b with h | h | h
  · rw [h] at h1; exact Bool.noConfusion h1
  · subst h; rw [h3] at h2; exact Bool.noConfusion h2
  · have := strLess_trans b a c h h3
    rw [this] at h2; exact Bool.noConfusion h2

theorem comparator_int (key : User → Int) :
    (∀ a b : User, decide (key a < key b) = true → decide (key b < key a) = false) ∧
    (∀ a b c : User, decide (key a < key b) = false → decide (key b < key c) = false →
      decide (key a < key c) = false) := by
  constructor
  · intro a b; simp only [decide_eq_true_eq, decide_eq_false_iff_not]; omega
  · intro a b c; simp only [decide_eq_false_iff_not]; omega

/-- The comparator the sort stage uses depends on the request alone. -/
theorem sortStage_uniform (req : SearchRequest)
    (hBy : req.OrderBy = 1 ∨ req.OrderBy = -1) (hField : req.OrderField ∈ orderFields) :
    ∃ less, (∀ users, sortStage req users = .ok (SliceStable less users)) ∧
      ComparatorFor req less := by
  obtain ⟨lim, off, q, f, ob⟩ := req
  have e1 : strName ≠ strId := by decide
  have e2 : strAge ≠ strId := by decide
  have e3 : strName ≠ strAge := by decide
  have e4 : strId ≠ strAge := by decide
  have e5 : ([] : GoString) ≠ strId := by decide
  have e6 : ([] : GoString) ≠ strAge := by decide
  have e7 : strName ≠ ([] : GoString) := by decide
  have e8 : strAge ≠ ([] : GoString) := by decide
  have e9 : strAge ≠ strName := by decide
  simp only [orderFields, List.mem_cons, List.mem_singleton, List.not_mem_nil, or_false]
    at hField
  simp only at hBy
  rcases hBy with rfl | rfl
  · rcases hField with rfl | rfl | rfl | rfl
    · refine ⟨fun a b => strLess a.Name b.Name, fun users => by simp [sortStage, e5], ?_, ?_, ?_, ?_⟩
      · intro a b; exact strLess_asymm _ _
      · intro a b c; exact strLess_negtrans _ _ _
      · intro a b; simp [keyLe, e5, e6, strLe_iff_not_less]
      · intro u a b
        simp only [sameKey, e5, e6, if_false, beq_iff_eq]
        intro h1 h2; rw [← h1, ← h2]; exact strLess_irrefl _
    · refine ⟨fun a b => decide (a.Id < b.Id), fun users => by simp [sortStage], ?_, ?_, ?_, ?_⟩
      · exact (comparator_int User.Id).1
      · exact (comparator_int User.Id).2
      · intro a b; simp [keyLe]
      · intro u a b
        simp only [sameKey, if_true, beq_iff_eq, decide_eq_false_iff_not]
        intro h1 h2; omega
    · refine ⟨fun a b => strLess a.Name b.Name, fun users => by simp [sortStage, e1, e7], ?_, ?_, ?_, ?_⟩
      · intro a b; exact strLess_asymm _ _
      · intro a b c; exact strLess_negtrans _ _ _
      · intro a b; simp [keyLe, e1, e3, strLe_iff_not_less]
      · intro u a b
        simp only [sameKey, e1, e3, if_false, beq_iff_eq]
        intro h1 h2; rw [← h1, ← h2]; exact strLess_irrefl _
    · refine ⟨fun a b => decide (a.Age < b.Age), fun users => by simp [sortStage, e2, e8, e9], ?_, ?_, ?_, ?_⟩
      · exact (comparator_int User.Age).1
      · exact (comparator_int User.Age).2
      · intro a b; simp [keyLe, e2]
      · intro u a b
        simp only [sameKey, e2, if_false, if_true, beq_iff_eq, decide_eq_false_iff_not]
        intro h1 h2; omega
  · rcases hField with rfl | rfl | rfl | rfl
    · refine ⟨fun a b => strLess b.Name a.Name, fun users => by simp [sortStage, e5], ?_, ?_, ?_, ?_⟩
      · intro a b; exact strLess_asymm _ _
      · intro a b c h1 h2; exact strLess_negtrans _ _ _ h2 h1
      · intro a b; simp [keyLe, e5, e6, strLe_iff_not_less]
      · intro u a b
        simp only [sameKey, e5, e6, if_false, beq_iff_eq]
        intro h1 h2; rw [← h1, ← h2]; exact strLess_irrefl _
    · refine ⟨fun a b => decide (a.Id > b.Id), fun users => by simp [sortStage], ?_, ?_, ?_, ?_⟩
      · intro a b; exact (comparator_int User.Id).1 b a
      · intro a b c h1 h2; exact (comparator_int User.Id).2 c b a h2 h1
      · intro a b; simp [keyLe]
      · intro u a b
        simp only [sameKey, if_true, beq_iff_eq, decide_eq_false_iff_not]
        intro h1 h2; omega
    · refine ⟨fun a b => strLess b.Name a.Name, fun users => by simp [sortStage, e1, e7], ?_, ?_, ?_, ?_⟩
      · intro a b; exact strLess_asymm _ _
      · intro a b c h1 h2; exact strLess_negtrans _ _ _ h2 h1
      · intro a b; simp [keyLe, e1, e3, strLe_iff_not_less]
      · intro u a b
        simp only [sameKey, e1, e3, if_false, beq_iff_eq]
        intro h1 h2; rw [← h1, ← h2]; exact strLess_irrefl _
    · refine ⟨fun a b => decide (a.Age > b.Age), fun users => by simp [sortStage, e2, e8, e9], ?_, ?_, ?_, ?_⟩
      · intro a b; exact (comparator_int User.Age).1 b a
      · intro a b c h1 h2; exact (comparator_int User.Age).2 c b a h2 h1
      · intro a b; simp [keyLe, e2]
      · intro u a b
        simp only [sameKey, e2, if_false, if_true, beq_iff_eq, decide_eq_false_iff_not]
        intro h1 h2; omega

theorem sortStage_comparator (req : SearchRequest) (users : List User)
    (hBy : req.OrderBy = 1 ∨ req.OrderBy = -1) (hField : req.OrderField ∈ orderFields) :
    ∃ less, sortStage req users = .ok (SliceStable less users) ∧ ComparatorFor req less := by
  obtain ⟨less, h, hc⟩ := sortStage_uniform req hBy hField
  exact ⟨less, h users, hc⟩

/-- Sorting a second time changes nothing. -/
theorem SliceStable_idem {α : Type} (less : α → α → Bool)
    (hasymm : ∀ a b, less a b = true → less b a = false)
    (hneg : ∀ a b c, less a b = false → less b c = false → less a c = false)
    (data : List α) :
    SliceStable less (SliceStable less data) = SliceStable less data :=
  (SliceStable_unique less hasymm hneg (SliceStable less data) (SliceStable less data)
    (List.Perm.refl _) (SliceStable_sorted less hasymm hneg data) (fun _ => rfl)).symm

/-! ## Integers and pagination: lemmas -/

theorem wrapInt_of_inRange (x : Int) (h1 : minInt ≤ x) (h2 : x ≤ maxInt) : wrapInt x = x := by
  unfold wrapInt; unfold minInt at h1; unfold maxInt at h2; omega

theorem paginate_of_le (req : SearchRequest) (users : List User)
    (hoff : 0 ≤ req.Offset) (hlim : 0 ≤ req.Limit)
    (hlen : req.Offset + req.Limit ≤ (users.length : Int))
    (hcap : (users.length : Int) ≤ maxInt) :
    paginate req users = some ((users.drop req.Offset.toNat).take req.Limit.toNat) := by
  have hsum : addInt req.Limit req.Offset = req.Limit + req.Offset := by
    unfold addInt
    apply wrapInt_of_inRange
    · unfold minInt; omega
    · omega
  unfold paginate sliceUsers
  rw [hsum]
  have h1 : (users.length : Int) ≥ req.Limit + req.Offset := by omega
  have h2 : 0 ≤ req.Offset ∧ req.Offset ≤ req.Limit + req.Offset ∧
      req.Limit + req.Offset ≤ (users.length : Int) := by omega
  rw [if_pos h1, if_pos h2]
  have h3 : req.Limit + req.Offset - req.Offset = req.Limit := by omega
  rw [h3]

theorem paginate_of_lt (req : SearchRequest) (users : List User)
    (h : (users.length : Int) < addInt req.Limit req.Offset) :
    paginate req users = some users := by
  unfold paginate
  rw [if_neg (by omega)]

theorem atoiDigits_inRange (neg : Bool) (ds : GoString) (v : Int)
    (h : atoiDigits neg ds = some v) : minInt ≤ v ∧ v ≤ maxInt := by
  unfold atoiDigits at h
  split at h
  · exact Option.noConfusion h
  · split at h
    · exact Option.noConfusion h
    · rename_i n _
      by_cases hr : minInt ≤ (if neg then -(n : Int) else (n : Int)) ∧
          (if neg then -(n : Int) else (n : Int)) ≤ maxInt
      · rw [if_pos hr] at h
        injection h with h
        rw [← h]; exact hr
      · rw [if_neg hr] at h
        exact Option.noConfusion h

theorem Atoi_inRange (s : GoString) (v : Int) (h : Atoi s = some v) :
    minInt ≤ v ∧ v ≤ maxInt := by
  unfold Atoi at h
  split at h
  · exact Option.noConfusion h
  · split at h
    · exact atoiDigits_inRange _ _ _ h
    · split at h
      · exact atoiDigits_inRange _ _ _ h
      · exact atoiDigits_inRange _ _ _ h

/-! ## The handler: lemmas -/

theorem sortStage_error_status (req : SearchRequest) (users : List User) (resp : Response)
    (h : sortStage req users = .error resp) : resp.status = 400 := by
  unfold sortStage at h
  repeat' split at h
  all_goals first
    | exact Except.noConfusion h
    | (injection h with h; subst h; rfl)

theorem sortStage_ok_perm (req : SearchRequest) (users sorted : List User)
    (h : sortStage req users = .ok sorted) : sorted.Perm users := by
  unfold sortStage at h
  repeat' split at h
  all_goals first
    | exact Except.noConfusion h
    | (injection h with h; subst h; first | exact List.Perm.refl _ | exact SliceStable_perm _ _)

/-- A successful answer (status 200) comes from a decodable dataset and a
request that passed every check, and carries the page cut from the sorted
selection. -/
theorem SearchServer_success (data : Dataset) (r : Request) (resp : Response)
    (h : SearchServer data r = some resp) (hst : resp.status = 200) :
    ∃ rows limit offset orderBy sorted page,
      data = .file (some rows) ∧ r.AccessToken ≠ strBad ∧
      Atoi r.limit = some limit ∧ Atoi r.offset = some offset ∧
      Atoi r.order_by = some orderBy ∧
      sortStage ⟨limit, offset, r.query, r.order_field, orderBy⟩
        (filterStage ⟨limit, offset, r.query, r.order_field, orderBy⟩ rows) = .ok sorted ∧
      paginate ⟨limit, offset, r.query, r.order_field, orderBy⟩ sorted = some page ∧
      resp = ⟨200, .users page⟩ := by
  unfold SearchServer at h
  cases data with
  | missing =>
    simp only [Option.some.injEq] at h
    subst h; simp at hst
  | file decoded =>
    simp only at h
    by_cases htok : r.AccessToken = strBad
    · rw [if_pos htok] at h
      simp only [Option.some.injEq] at h
      subst h; simp at hst
    · rw [if_neg htok] at h
      cases hl : Atoi r.limit with
      | none => rw [hl] at h; simp only [Option.some.injEq] at h; subst h; simp at hst
      | some limit =>
        cases ho : Atoi r.offset with
        | none => rw [hl, ho] at h; simp only [Option.some.injEq] at h; subst h; simp at hst
        | some offset =>
          cases hb : Atoi r.order_by with
          | none => rw [hl, ho, hb] at h; simp only [Option.some.injEq] at h; subst h; simp at hst
          | some orderBy =>
            rw [hl, ho, hb] at h
            cases decoded with
            | none => simp only [Option.some.injEq] at h; subst h; simp at hst
            | some rows =>
              simp only [respond] at h
              cases hs : sortStage ⟨limit, offset, r.query, r.order_field, orderBy⟩
                  (filterStage ⟨limit, offset, r.query, r.order_field, orderBy⟩ rows) with
              | error e =>
                rw [hs] at h
                simp only [Option.some.injEq] at h
                subst h
                have := sortStage_error_status _ _ _ hs
                omega
              | ok sorted =>
                rw [hs] at h
                dsimp only at h
                cases hp : paginate ⟨limit, offset, r.query, r.order_field, orderBy⟩ sorted with
                | none => rw [hp] at h; exact Option.noConfusion h
                | some page =>
                  rw [hp] at h
                  simp only [Option.some.injEq] at h
                  exact ⟨rows, limit, offset, orderBy, sorted, page, rfl, htok, rfl, rfl, rfl,
                    hs, hp, h.symm⟩

/-- A request that passes the token and the three integer checks on a decodable
dataset is answered by the pipeline. -/
theorem SearchServer_valid (rows : List row) (r : Request) (limit offset orderBy : Int)
    (htok : r.AccessToken ≠ strBad) (hl : Atoi r.limit = some limit)
    (ho : Atoi r.offset = some offset) (hb : Atoi r.order_by = some orderBy) :
    SearchServer (.file (some rows)) r =
      respond ⟨limit, offset, r.query, r.order_field, orderBy⟩ rows := by
  unfold SearchServer
  simp only [if_neg htok, hl, ho, hb]

/-- On the three sample rows, `limit=1&offset=3&order_by=0` is answered with all
three records. -/
theorem sample_short_page :
    SearchServer (.file (some sampleRows)) (mkRequest [49] [51] [48] [] []) =
      some ⟨200, .users sampleUsers⟩ := by
  rw [SearchServer_valid sampleRows _ 1 3 0 (by decide) (by decide) (by decide) (by decide)]
  decide

/-- Where the mathematical sum of limit and offset is a Go `int`, it is the sum
the code computes, and a shorter slice is returned whole. -/
theorem paginate_of_lt_sum (req : SearchRequest) (users : List User)
    (h : (users.length : Int) < req.Limit + req.Offset)
    (hsum : req.Limit + req.Offset ≤ maxInt) :
    paginate req users = some users := by
  apply paginate_of_lt
  unfold addInt
  rw [wrapInt_of_inRange _ (by unfold minInt; omega) hsum]
  exact h

/-! ## The handler: responses by status -/

theorem sortStage_error_envelope (req : SearchRequest) (users : List User) (resp : Response)
    (h : sortStage req users = .error resp) :
    resp.status = 400 ∧ isErrorEnvelope resp.body = true := by
  unfold sortStage at h
  repeat' split at h
  all_goals first
    | exact Except.noConfusion h
    | (injection h with h; subst h; exact ⟨rfl, by decide⟩)

/-- Every response of the handler is the 401 answer to the token "bad", a 400
answer with an error envelope, or a 200 answer with a record list. -/
theorem SearchServer_cases (data : Dataset) (r : Request) (resp : Response)
    (h : SearchServer data r = some resp) :
    (r.AccessToken = strBad ∧ data ≠ .missing ∧ resp = ⟨401, .text "Bad AccessToken"⟩) ∨
    (resp.status = 400 ∧ isErrorEnvelope resp.body = true ∧
      (data = .missing ∨ r.AccessToken ≠ strBad)) ∨
    (resp.status = 200 ∧ r.AccessToken ≠ strBad ∧ ∃ page, resp.body = .users page) := by
  unfold SearchServer at h
  cases data with
  | missing =>
    simp only [Option.some.injEq] at h
    subst h
    exact Or.inr (Or.inl ⟨rfl, by decide, Or.inl rfl⟩)
  | file decoded =>
    simp only at h
    by_cases htok : r.AccessToken = strBad
    · rw [if_pos htok] at h
      simp only [Option.some.injEq] at h
      exact Or.inl ⟨htok, by simp, h.symm⟩
    · rw [if_neg htok] at h
      right
      cases hl : Atoi r.limit with
      | none =>
        rw [hl] at h; simp only [Option.some.injEq] at h; subst h
        exact Or.inl ⟨rfl, by decide, Or.inr htok⟩
      | some limit =>
        cases ho : Atoi r.offset with
        | none =>
          rw [hl, ho] at h; simp only [Option.some.injEq] at h; subst h
          exact Or.inl ⟨rfl, by decide, Or.inr htok⟩
        | some offset =>
          cases hb : Atoi r.order_by with
          | none =>
            rw [hl, ho, hb] at h; simp only [Option.some.injEq] at h; subst h
            exact Or.inl ⟨rfl, by decide, Or.inr htok⟩
          | some orderBy =>
            rw [hl, ho, hb] at h
            cases decoded with
            | none =>
              simp only [Option.some.injEq] at h; subst h
              exact Or.inl ⟨rfl, by decide, Or.inr htok⟩
            | some rows =>
              simp only [respond] at h
              cases hs : sortStage ⟨limit, offset, r.query, r.order_field, orderBy⟩
                  (filterStage ⟨limit, offset, r.query, r.order_field, orderBy⟩ rows) with
              | error e =>
                rw [hs] at h
                simp only [Option.some.injEq] at h
                subst h
                have he := sortStage_error_envelope _ _ _ hs
                exact Or.inl ⟨he.1, he.2, Or.inr htok⟩
              | ok sorted =>
                rw [hs] at h
                dsimp only at h
                cases hp : paginate ⟨limit, offset, r.query, r.order_field, orderBy⟩ sorted with
                | none => rw [hp] at h; exact Option.noConfusion h
                | some page =>
                  rw [hp] at h
                  simp only [Option.some.injEq] at h
                  subst h
                  exact Or.inr ⟨rfl, htok, page, rfl⟩

/-- The filter stage reads the query of the request and nothing else. -/
theorem filterStage_congr (req req2 : SearchRequest) (rows : List row)
    (h : req.Query = req2.Query) : filterStage req rows = filterStage req2 rows := by
  unfold filterStage
  rw [filterLoop_eq, filterLoop_eq, h]

/-- The pagination stage reads the limit and the offset and nothing else. -/
theorem paginate_congr (req req2 : SearchRequest) (users : List User)
    (hl : req.Limit = req2.Limit) (ho : req.Offset = req2.Offset) :
    paginate req users = paginate req2 users := by
  unfold paginate
  rw [hl, ho]

/-- The sort stage does the same for the order fields `""` and `"Name"`. -/
theorem sortStage_empty_name (limit offset orderBy : Int) (query : GoString)
    (users : List User) :
    sortStage ⟨limit, offset, query, [], orderBy⟩ users =
      sortStage ⟨limit, offset, query, strName, orderBy⟩ users := by
  have e1 : strName ≠ strId := by decide
  have e5 : ([] : GoString) ≠ strId := by decide
  have e7 : strName ≠ ([] : GoString) := by decide
  simp only [sortStage, e1, e5, e7, if_false, if_true]

/-! ## Filtering and sorting: further lemmas -/

/-- The code's predicate on a record is the infix test of the spec, for every
query: the empty query is an infix of every string. -/
theorem keeps_eq_matchesQuery (q : GoString) (u : User) :
    (Contains u.About q || Contains u.Name q || q == []) = matchesQuery q u := by
  unfold matchesQuery
  rw [Bool.eq_iff_iff]
  simp only [Bool.or_eq_true, contains_iff, decide_eq_true_eq, beq_iff_eq]
  constructor
  · rintro ((h | h) | h)
    · exact Or.inr h
    · exact Or.inl h
    · subst h; exact Or.inl List.nil_infix
  · rintro (h | h)
    · exact Or.inl (Or.inr h)
    · exact Or.inl (Or.inl h)

theorem filterStage_eq_filter (req : SearchRequest) (rows : List row) :
    filterStage req rows = (rows.map toUser).filter (matchesQuery req.Query) := by
  unfold filterStage
  rw [filterLoop_eq, List.nil_append]
  apply List.filter_congr
  intro u _
  exact keeps_eq_matchesQuery req.Query u

theorem filterLoopPlain_eq (req : SearchRequest) (rows : List row) (users : List User) :
    filterLoopPlain req rows users =
      users ++ (rows.map toUser).filter
        (fun u => Contains u.About req.Query || Contains u.Name req.Query) := by
  induction rows generalizing users with
  | nil => simp [filterLoopPlain]
  | cons r rest ih =>
    simp only [filterLoopPlain, List.map_cons, List.filter_cons, toUser]
    split
    · rw [ih]; simp
    · rw [ih]

/-- Selecting from a stably sorted list is stably sorting the selection. -/
theorem SliceStable_filter_comm {α : Type} (less : α → α → Bool)
    (hasymm : ∀ a b, less a b = true → less b a = false)
    (hneg : ∀ a b c, less a b = false → less b c = false → less a c = false)
    (p : α → Bool) (data : List α) :
    (SliceStable less data).filter p = SliceStable less (data.filter p) := by
  refine SliceStable_unique less hasymm hneg (data.filter p) _
    ((SliceStable_perm less data).filter p)
    ((SliceStable_sorted less hasymm hneg data).filter p) ?_
  intro x
  rw [List.filter_filter, List.filter_filter]
  refine SliceStable_filter less _ ?_ data
  intro a b ha hb
  simp only [Bool.and_eq_true, Bool.not_eq_true'] at ha hb
  exact hneg a x b ha.1.2 hb.1.1

theorem reverse_of_pairwise_false {α : Type} (l : List α)
    (h : l.Pairwise (fun _ _ => False)) : l.reverse = l := by
  cases l with
  | nil => rfl
  | cons a t =>
    cases t with
    | nil => rfl
    | cons b t2 =>
      rw [List.pairwise_cons] at h
      exact (h.1 b (List.mem_cons_self _ _)).elim

/-- With no two elements equivalent, sorting by the flipped comparator gives the
reverse of sorting by the comparator. -/
theorem SliceStable_flip {α : Type} (less : α → α → Bool)
    (hasymm : ∀ a b, less a b = true → less b a = false)
    (hneg : ∀ a b c, less a b = false → less b c = false → less a c = false)
    (data : List α)
    (hdistinct : data.Pairwise (fun a b => less a b = true ∨ less b a = true)) :
    SliceStable (fun a b => less b a) data = (SliceStable less data).reverse := by
  symm
  refine SliceStable_unique (fun a b => less b a) (fun a b => hasymm b a)
    (fun a b c h1 h2 => hneg c b a h2 h1) data _
    ((List.reverse_perm _).trans (SliceStable_perm less data)) ?_ ?_
  · rw [List.pairwise_reverse]
    exact SliceStable_sorted less hasymm hneg data
  · intro x
    have hp : ∀ a b, (!less a x && !less x a) = true → (!less b x && !less x b) = true →
        less a b = false := by
      intro a b ha hb
      simp only [Bool.and_eq_true, Bool.not_eq_true'] at ha hb
      exact hneg a x b ha.1 hb.2
    rw [List.filter_reverse, SliceStable_filter less _ hp data]
    apply reverse_of_pairwise_false
    have hsub : (data.filter (fun y => !less y x && !less x y)).Pairwise
        (fun a b => less a b = true ∨ less b a = true) := hdistinct.filter _
    have hall : ∀ a ∈ data.filter (fun y => !less y x && !less x y),
        (!less a x && !less x a) = true := fun a ha => (List.mem_filter.1 ha).2
    refine (List.Pairwise.and_mem.1 hsub).imp ?_
    rintro a b ⟨ha, hb, hab⟩
    have h1 := hp a b (hall a ha) (hall b hb)
    have h2 := hp b a (hall b hb) (hall a ha)
    rcases hab with hab | hab
    · rw [h1] at hab; exact Bool.noConfusion hab
    · rw [h2] at hab; exact Bool.noConfusion hab

/-- Keys at most each other are the same key. -/
theorem sameKey_of_keyLe (orderField : GoString) (a b : User)
    (h1 : keyLe orderField a b = true) (h2 : keyLe orderField b a = true) :
    sameKey orderField a b = true := by
  unfold keyLe at h1 h2
  unfold sameKey
  split
  · rename_i hf
    rw [if_pos hf, decide_eq_true_eq] at h1 h2
    simp only [beq_iff_eq]; omega
  · rename_i hf
    split
    · rename_i hg
      rw [if_neg hf, if_pos hg, decide_eq_true_eq] at h1 h2
      simp only [beq_iff_eq]; omega
    · rename_i hg
      rw [if_neg hf, if_neg hg] at h1 h2
      rw [strLe_iff_not_less] at h1 h2
      simp only [beq_iff_eq]
      rcases strLess_total a.Name b.Name with h | h | h
      · rw [h] at h2; exact Bool.noConfusion h2
      · exact h
      · rw [h] at h1; exact Bool.noConfusion h1

/-- On the three sample rows, `limit=1&offset=0&order_by=0` is answered with the
first record. -/
theorem sample_first_page :
    SearchServer (.file (some sampleRows)) (mkRequest [49] [48] [48] [] []) =
      some ⟨200, .users (sampleUsers.take 1)⟩ := by
  rw [SearchServer_valid sampleRows _ 1 0 0 (by decide) (by decide) (by decide) (by decide)]
  decide

/-! ## Claims -/

/-- C1: for a non-empty query, the filter stage yields exactly the converted
records whose Name or About contains the query as a (byte-exact, hence
case-sensitive) substring, in their original order: it is the order-preserving
selection of the converted rows by that predicate. -/
theorem filterStage_exact (req : SearchRequest) (rows : List row) (hQ : req.Query ≠ []) :
    filterStage req rows = (rows.map toUser).filter (matchesQuery req.Query) := by
  unfold filterStage
  rw [filterLoop_eq, List.nil_append]
  apply List.filter_congr
  intro u _
  have hq : (req.Query == []) = false := by simpa using hQ
  rw [hq, Bool.or_false]
  unfold matchesQuery
  rw [Bool.eq_iff_iff]
  simp only [Bool.or_eq_true, contains_iff, decide_eq_true_eq]
  exact Or.comm

theorem filterStage_exact_witness :
    (([72] : GoString) ≠ []) ∧
      filterStage ⟨3, 0, [72], [], 0⟩ sampleRows =
        (sampleRows.map toUser).filter (matchesQuery [72]) :=
  ⟨by decide, filterStage_exact ⟨3, 0, [72], [], 0⟩ sampleRows (by decide)⟩

/-- C2: for orderBy 1 or -1 and an order field among "", "Id", "Name", "Age", the
sort stage succeeds and is stable: for every record `u`, the records with the
sort key of `u` form the same sequence in the output as in the input; so two
records of equal key that occur in some order in the input occur in that order
in the output. -/
theorem sortStage_stable (req : SearchRequest) (users : List User)
    (hBy : req.OrderBy = 1 ∨ req.OrderBy = -1) (hField : req.OrderField ∈ orderFields) :
    ∃ out, sortStage req users = .ok out ∧
      (∀ u, out.filter (sameKey req.OrderField u) = users.filter (sameKey req.OrderField u)) ∧
      (∀ u v, sameKey req.OrderField u v = true →
        List.Sublist [u, v] users → List.Sublist [u, v] out) := by
  obtain ⟨less, hok, _, _, _, hsame⟩ := sortStage_comparator req users hBy hField
  have hfilter : ∀ u, (SliceStable less users).filter (sameKey req.OrderField u) =
      users.filter (sameKey req.OrderField u) :=
    fun u => SliceStable_filter less _ (fun a b ha hb => hsame u a b ha hb) users
  refine ⟨_, hok, hfilter, ?_⟩
  intro u v huv hsub
  have hrefl : sameKey req.OrderField u u = true := by
    unfold sameKey; split
    · simp
    · split <;> simp
  have h1 : List.Sublist ([u, v].filter (sameKey req.OrderField u))
      (users.filter (sameKey req.OrderField u)) := hsub.filter _
  rw [← hfilter u] at h1
  have h2 : [u, v].filter (sameKey req.OrderField u) = [u, v] := by
    simp [List.filter_cons, hrefl, huv]
  rw [h2] at h1
  exact h1.trans (List.filter_sublist _)

theorem sortStage_stable_witness :
    ((1 : Int) = 1 ∨ (1 : Int) = -1) ∧ strAge ∈ orderFields ∧
    ∃ out, sortStage ⟨3, 0, [], strAge, 1⟩ sampleUsers = .ok out ∧
      (∀ u, out.filter (sameKey strAge u) = sampleUsers.filter (sameKey strAge u)) ∧
      (∀ u v, sameKey strAge u v = true →
        List.Sublist [u, v] sampleUsers → List.Sublist [u, v] out) :=
  ⟨Or.inl rfl, by decide,
    sortStage_stable ⟨3, 0, [], strAge, 1⟩ sampleUsers (Or.inl rfl) (by decide)⟩

/-- C3: for an order field among "", "Id", "Name", "Age", the sort stage returns a
permutation of its input whose keys are non-decreasing for orderBy = 1 and
non-increasing for orderBy = -1, Id and Age compared as integers and Name (also
selected by "") in the lexicographic order of its bytes. -/
theorem sortStage_sorted (req : SearchRequest) (users : List User)
    (hBy : req.OrderBy = 1 ∨ req.OrderBy = -1) (hField : req.OrderField ∈ orderFields) :
    ∃ out, sortStage req users = .ok out ∧ out.Perm users ∧
      (req.OrderBy = 1 → out.Pairwise (fun a b => keyLe req.OrderField a b = true)) ∧
      (req.OrderBy = -1 → out.Pairwise (fun a b => keyLe req.OrderField b a = true)) := by
  obtain ⟨less, hok, hasymm, hneg, hle, _⟩ := sortStage_comparator req users hBy hField
  have hs := SliceStable_sorted less hasymm hneg users
  refine ⟨_, hok, SliceStable_perm less users, ?_, ?_⟩
  · intro h1
    refine hs.imp ?_
    intro a b hab
    have := (hle b a).1 hab
    rwa [if_pos h1] at this
  · intro h1
    refine hs.imp ?_
    intro a b hab
    have := (hle b a).1 hab
    have hne : ¬ req.OrderBy = 1 := by omega
    rwa [if_neg hne] at this

theorem sortStage_sorted_witness :
    ((-1 : Int) = 1 ∨ (-1 : Int) = -1) ∧ strName ∈ orderFields ∧
    ∃ out, sortStage ⟨3, 0, [], strName, -1⟩ sampleUsers = .ok out ∧ out.Perm sampleUsers ∧
      ((-1 : Int) = 1 → out.Pairwise (fun a b => keyLe strName a b = true)) ∧
      ((-1 : Int) = -1 → out.Pairwise (fun a b => keyLe strName b a = true)) :=
  ⟨Or.inr rfl, by decide,
    sortStage_sorted ⟨3, 0, [], strName, -1⟩ sampleUsers (Or.inr rfl) (by decide)⟩

/-- C4: for offset >= 0 and limit >= 0 with len(S) >= offset + limit, the
pagination stage returns exactly limit records, the i-th being S[offset + i] for
every i < limit. (`hcap`: a Go slice holds at most `maxInt` elements.) -/
theorem paginate_window (req : SearchRequest) (S : List User)
    (hoff : 0 ≤ req.Offset) (hlim : 0 ≤ req.Limit)
    (hlen : req.Offset + req.Limit ≤ (S.length : Int))
    (hcap : (S.length : Int) ≤ maxInt) :
    ∃ page, paginate req S = some page ∧ (page.length : Int) = req.Limit ∧
      ∀ i : Nat, (i : Int) < req.Limit →
        ∃ u, page[i]? = some u ∧ S[req.Offset.toNat + i]? = some u := by
  refine ⟨_, paginate_of_le req S hoff hlim hlen hcap, ?_, ?_⟩
  · rw [List.length_take, List.length_drop]
    omega
  · intro i hi
    have hi2 : i < req.Limit.toNat := by omega
    have hi3 : req.Offset.toNat + i < S.length := by omega
    refine ⟨S[req.Offset.toNat + i], ?_, List.getElem?_eq_getElem hi3⟩
    rw [List.getElem?_take_of_lt hi2, List.getElem?_drop, List.getElem?_eq_getElem hi3]

theorem paginate_window_witness :
    (0 : Int) ≤ 1 ∧ (0 : Int) ≤ 2 ∧ (1 : Int) + 2 ≤ (sampleUsers.length : Int) ∧
    (sampleUsers.length : Int) ≤ maxInt ∧
    ∃ page, paginate ⟨2, 1, [], [], 0⟩ sampleUsers = some page ∧ (page.length : Int) = 2 ∧
      ∀ i : Nat, (i : Int) < 2 →
        ∃ u, page[i]? = some u ∧ sampleUsers[Int.toNat 1 + i]? = some u :=
  ⟨by decide, by decide, by decide, by decide,
    paginate_window ⟨2, 1, [], [], 0⟩ sampleUsers (by decide) (by decide) (by decide)
      (by decide)⟩

/-- C5 (the code departs from it): with limit 9223372036854775807 and offset 1
every Go slice `S` is shorter than offset + limit, yet the pagination stage does
not return `S`: the sum wraps to the least `int`, the guard
`len(users) >= req.Limit+req.Offset` holds and `users[1:-9223372036854775808]`
panics. Wherever offset + limit is within the `int` range a shorter slice is
returned as it is, from index 0. -/
theorem short_page_overflow (S : List User) (query orderField : GoString) (orderBy : Int) :
    ((S.length : Int) ≤ maxInt → (S.length : Int) < 1 + 9223372036854775807) ∧
    paginate ⟨9223372036854775807, 1, query, orderField, orderBy⟩ S = none ∧
    (∀ (req : SearchRequest) (users : List User),
      (users.length : Int) < req.Offset + req.Limit → req.Offset + req.Limit ≤ maxInt →
      paginate req users = some users) := by
  refine ⟨?_, ?_, ?_⟩
  · intro h; unfold maxInt at h; omega
  · have h1 : addInt 9223372036854775807 1 = -9223372036854775808 := by decide
    simp only [paginate, sliceUsers, h1]
    rw [if_pos (by omega), if_neg (by omega)]
  · intro req users hlt hsum
    exact paginate_of_lt_sum req users (by omega) (by omega)

/-- C6 (the code departs from it): a negative limit passes the validator and
makes the slice expression panic, whatever the dataset holds, and so does a
limit whose sum with the offset overflows: with `limit=-1&offset=0` the guard
`len(users) >= -1` holds and `users[0:-1]` is taken; with
`limit=9223372036854775807&offset=1` the sum wraps to the least `int`, the guard
holds and `users[1:-9223372036854775808]` is taken. -/
theorem pagination_panics (rows : List row) :
    Atoi [45, 49] = some (-1) ∧ Atoi [48] = some 0 ∧
    SearchServer (.file (some rows)) (mkRequest [45, 49] [48] [48] [] []) = none ∧
    Atoi [57, 50, 50, 51, 51, 55, 50, 48, 51, 54, 56, 53, 52, 55, 55, 53, 56, 48, 55] =
      some 9223372036854775807 ∧
    Atoi [49] = some 1 ∧
    SearchServer (.file (some rows))
      (mkRequest [57, 50, 50, 51, 51, 55, 50, 48, 51, 54, 56, 53, 52, 55, 55, 53, 56, 48, 55]
        [49] [48] [] []) = none := by
  refine ⟨by decide, by decide, ?_, by decide, by decide, ?_⟩
  · rw [SearchServer_valid rows _ (-1) 0 0 (by decide) (by decide) (by decide) (by decide)]
    have h1 : addInt (-1) 0 = -1 := by decide
    simp only [respond, sortStage, if_true, paginate, sliceUsers, h1]
    rw [if_pos (by omega), if_neg (by omega)]
  · rw [SearchServer_valid rows _ 9223372036854775807 1 0 (by decide) (by decide) (by decide)
      (by decide)]
    have h1 : addInt 9223372036854775807 1 = -9223372036854775808 := by decide
    simp only [respond, sortStage, if_true, paginate, sliceUsers, h1]
    rw [if_pos (by omega), if_neg (by omega)]

/-- C7 as stated fails: `limit=1&offset=3&order_by=0` on the three sample rows is
answered with status 200 and all three records, more than the limit of 1. -/
theorem window_exceeds_limit :
    Atoi [49] = some 1 ∧ Atoi [51] = some 3 ∧
    SearchServer (.file (some sampleRows)) (mkRequest [49] [51] [48] [] []) =
      some ⟨200, .users sampleUsers⟩ ∧
    ¬ ((sampleUsers.length : Int) ≤ 1) :=
  ⟨by decide, by decide, sample_short_page, by decide⟩

/-- C7 (amended): a request with limit >= 0 and offset >= 0 that is answered
with status 200 carries exactly limit records when at least offset + limit
records match the query, and otherwise carries every matching record (fewer than
offset + limit of them); so at most limit records whenever at least
offset + limit records match or the offset is 0. -/
theorem window_size (data : Dataset) (r : Request) (resp : Response) (limit offset : Int)
    (hl : Atoi r.limit = some limit) (ho : Atoi r.offset = some offset)
    (hlim : 0 ≤ limit) (hoff : 0 ≤ offset)
    (h : SearchServer data r = some resp) (hst : resp.status = 200) :
    ∃ rows orderBy page, data = .file (some rows) ∧ Atoi r.order_by = some orderBy ∧
      resp = ⟨200, .users page⟩ ∧
      (offset + limit ≤
          ((filterStage ⟨limit, offset, r.query, r.order_field, orderBy⟩ rows).length : Int) →
        (page.length : Int) = limit) ∧
      (((filterStage ⟨limit, offset, r.query, r.order_field, orderBy⟩ rows).length : Int) <
          offset + limit →
        page.length = (filterStage ⟨limit, offset, r.query, r.order_field, orderBy⟩ rows).length ∧
        (page.length : Int) < offset + limit) ∧
      (offset = 0 → (page.length : Int) ≤ limit) := by
  obtain ⟨rows, limit2, offset2, orderBy, sorted, page, hdata, _, hl2, ho2, hb, hs, hp, hresp⟩ :=
    SearchServer_success data r resp h hst
  rw [hl] at hl2; rw [ho] at ho2
  injection hl2 with hl2; injection ho2 with ho2
  subst hl2; subst ho2
  have hperm := sortStage_ok_perm _ _ _ hs
  have hlen := hperm.length_eq
  refine ⟨rows, orderBy, page, hdata, hb, hresp, ?_⟩
  rw [← hlen]
  -- the sum does not overflow, or the slice expression would have panicked
  have hsum : addInt limit offset = limit + offset := by
    by_contra hne
    have hneg : addInt limit offset < 0 := by
      unfold addInt wrapInt at hne ⊢
      have hA := (Atoi_inRange _ _ hl).2
      have hB := (Atoi_inRange _ _ ho).2
      unfold maxInt at hA hB
      omega
    unfold paginate sliceUsers at hp
    simp only at hp
    rw [if_pos (by omega), if_neg (by omega)] at hp
    exact Option.noConfusion hp
  unfold paginate sliceUsers at hp
  simp only [hsum] at hp
  by_cases hge : (sorted.length : Int) ≥ limit + offset
  · rw [if_pos hge, if_pos (by omega)] at hp
    injection hp with hp
    subst hp
    rw [List.length_take, List.length_drop]
    refine ⟨?_, ?_, ?_⟩
    · intro _; omega
    · intro hlt; omega
    · intro _; omega
  · rw [if_neg hge] at hp
    injection hp with hp
    subst hp
    refine ⟨?_, ?_, ?_⟩
    · intro _; omega
    · intro _; exact ⟨rfl, by omega⟩
    · intro _; omega

theorem window_size_witness :
    ∃ rows orderBy page, Dataset.file (some sampleRows) = .file (some rows) ∧
      Atoi (mkRequest [49] [51] [48] [] []).order_by = some orderBy ∧
      (⟨200, .users sampleUsers⟩ : Response) = ⟨200, .users page⟩ ∧
      ((3 : Int) + 1 ≤
          ((filterStage ⟨1, 3, (mkRequest [49] [51] [48] [] []).query,
            (mkRequest [49] [51] [48] [] []).order_field, orderBy⟩ rows).length : Int) →
        (page.length : Int) = 1) ∧
      (((filterStage ⟨1, 3, (mkRequest [49] [51] [48] [] []).query,
            (mkRequest [49] [51] [48] [] []).order_field, orderBy⟩ rows).length : Int) <
          3 + 1 →
        page.length = (filterStage ⟨1, 3, (mkRequest [49] [51] [48] [] []).query,
            (mkRequest [49] [51] [48] [] []).order_field, orderBy⟩ rows).length ∧
        (page.length : Int) < 3 + 1) ∧
      ((3 : Int) = 0 → (page.length : Int) ≤ 1) :=
  window_size (.file (some sampleRows)) (mkRequest [49] [51] [48] [] [])
    ⟨200, .users sampleUsers⟩ 1 3 (by decide) (by decide) (by decide) (by decide)
    sample_short_page rfl

/-- C8 as stated fails: with `order_by=2` and the unknown order field `N` the
answer is the sort-parameter fault, not the BadOrderField fault. -/
theorem bad_field_with_bad_order :
    ([78] : GoString) ∉ orderFields ∧ Atoi [50] = some 2 ∧
    SearchServer (.file (some sampleRows)) (mkRequest [51] [48] [50] [] [78]) =
      some ⟨400, .text "\x7b\"error\": \"have no such sort parameter\"\x7d"⟩ ∧
    SearchServer (.file (some sampleRows)) (mkRequest [51] [48] [50] [] [78]) ≠
      some ⟨400, .text "\x7b\"error\": \"ErrorBadOrderField\"\x7d"⟩ := by
  have h : SearchServer (.file (some sampleRows)) (mkRequest [51] [48] [50] [] [78]) =
      some ⟨400, .text "\x7b\"error\": \"have no such sort parameter\"\x7d"⟩ := by
    rw [SearchServer_valid sampleRows _ 3 0 2 (by decide) (by decide) (by decide) (by decide)]
    decide
  refine ⟨by decide, by decide, h, ?_⟩
  rw [h]
  decide

/-- C8 (amended): for an order field outside "", "Id", "Name", "Age" and orderBy 1
or -1, a request that passes the earlier checks (decodable dataset, token other
than "bad", integer limit, offset and order_by) is answered with status 400 and
body `{"error": "ErrorBadOrderField"}`. -/
theorem bad_order_field (rows : List row) (r : Request) (limit offset orderBy : Int)
    (htok : r.AccessToken ≠ strBad) (hl : Atoi r.limit = some limit)
    (ho : Atoi r.offset = some offset) (hb : Atoi r.order_by = some orderBy)
    (hBy : orderBy = 1 ∨ orderBy = -1) (hField : r.order_field ∉ orderFields) :
    SearchServer (.file (some rows)) r =
      some ⟨400, .text "\x7b\"error\": \"ErrorBadOrderField\"\x7d"⟩ := by
  rw [SearchServer_valid rows r limit offset orderBy htok hl ho hb]
  simp only [orderFields, List.mem_cons, List.mem_singleton, List.not_mem_nil, or_false,
    not_or] at hField
  obtain ⟨f1, f2, f3, f4⟩ := hField
  rcases hBy with rfl | rfl
  · simp [respond, sortStage, f1, f2, f3, f4]
  · simp [respond, sortStage, f1, f2, f3, f4]

theorem bad_order_field_witness :
    (mkRequest [51] [48] [49] [] [78]).AccessToken ≠ strBad ∧
    Atoi (mkRequest [51] [48] [49] [] [78]).limit = some 3 ∧
    Atoi (mkRequest [51] [48] [49] [] [78]).offset = some 0 ∧
    Atoi (mkRequest [51] [48] [49] [] [78]).order_by = some 1 ∧
    ((1 : Int) = 1 ∨ (1 : Int) = -1) ∧
    (mkRequest [51] [48] [49] [] [78]).order_field ∉ orderFields ∧
    SearchServer (.file (some sampleRows)) (mkRequest [51] [48] [49] [] [78]) =
      some ⟨400, .text "\x7b\"error\": \"ErrorBadOrderField\"\x7d"⟩ :=
  ⟨by decide, by decide, by decide, by decide, Or.inl rfl, by decide,
    bad_order_field sampleRows (mkRequest [51] [48] [49] [] [78]) 3 0 1
      (by decide) (by decide) (by decide) (by decide) (Or.inl rfl) (by decide)⟩

/-- C9: for an orderBy outside -1, 0, 1 and any order field, a request that
reaches the sort stage (decodable dataset, token other than "bad", integer
limit, offset and order_by) is answered with status 400 and body
`{"error": "have no such sort parameter"}`; the body is that text, not a record
list. -/
theorem bad_sort_parameter (rows : List row) (r : Request) (limit offset orderBy : Int)
    (htok : r.AccessToken ≠ strBad) (hl : Atoi r.limit = some limit)
    (ho : Atoi r.offset = some offset) (hb : Atoi r.order_by = some orderBy)
    (hBy : orderBy ≠ -1 ∧ orderBy ≠ 0 ∧ orderBy ≠ 1) :
    SearchServer (.file (some rows)) r =
      some ⟨400, .text "\x7b\"error\": \"have no such sort parameter\"\x7d"⟩ := by
  rw [SearchServer_valid rows r limit offset orderBy htok hl ho hb]
  simp [respond, sortStage, hBy.1, hBy.2.1, hBy.2.2]

theorem bad_sort_parameter_witness :
    (mkRequest [51] [48] [50] [] strAge).AccessToken ≠ strBad ∧
    Atoi (mkRequest [51] [48] [50] [] strAge).limit = some 3 ∧
    Atoi (mkRequest [51] [48] [50] [] strAge).offset = some 0 ∧
    Atoi (mkRequest [51] [48] [50] [] strAge).order_by = some 2 ∧
    ((2 : Int) ≠ -1 ∧ (2 : Int) ≠ 0 ∧ (2 : Int) ≠ 1) ∧
    SearchServer (.file (some sampleRows)) (mkRequest [51] [48] [50] [] strAge) =
      some ⟨400, .text "\x7b\"error\": \"have no such sort parameter\"\x7d"⟩ :=
  ⟨by decide, by decide, by decide, by decide, by decide,
    bad_sort_parameter sampleRows (mkRequest [51] [48] [50] [] strAge) 3 0 2
      (by decide) (by decide) (by decide) (by decide) (by decide)⟩

/-- C10: with a readable dataset (its content decodable or not) and a token
other than "bad", the parameters are checked in the order limit, offset,
order_by and the first failure decides the response: a limit that does not parse
gives 400 "no limit in request" whatever the rest; else an offset that does not
parse gives 400 "no offset in request"; else an order_by that does not parse
gives 400 "no order_by in request". The body is the error text in each case, so
no record list is written. -/
theorem validation_first_match (decoded : Option (List row)) (r : Request)
    (htok : r.AccessToken ≠ strBad) :
    (Atoi r.limit = none →
      SearchServer (.file decoded) r =
        some ⟨400, .text "\x7b\"error\": \"no limit in request\"\x7d"⟩) ∧
    (Atoi r.limit ≠ none → Atoi r.offset = none →
      SearchServer (.file decoded) r =
        some ⟨400, .text "\x7b\"error\": \"no offset in request\"\x7d"⟩) ∧
    (Atoi r.limit ≠ none → Atoi r.offset ≠ none → Atoi r.order_by = none →
      SearchServer (.file decoded) r =
        some ⟨400, .text "\x7b\"error\": \"no order_by in request\"\x7d"⟩) := by
  refine ⟨?_, ?_, ?_⟩
  · intro hl
    simp only [SearchServer, if_neg htok, hl]
  · intro hl ho
    obtain ⟨limit, hl⟩ := Option.ne_none_iff_exists'.1 hl
    simp only [SearchServer, if_neg htok, hl, ho]
  · intro hl ho hb
    obtain ⟨limit, hl⟩ := Option.ne_none_iff_exists'.1 hl
    obtain ⟨offset, ho⟩ := Option.ne_none_iff_exists'.1 ho
    simp only [SearchServer, if_neg htok, hl, ho, hb]

theorem validation_first_match_witness :
    (mkRequest [] [120] [] [] []).AccessToken ≠ strBad ∧
    SearchServer (.file none) (mkRequest [] [120] [] [] []) =
      some ⟨400, .text "\x7b\"error\": \"no limit in request\"\x7d"⟩ ∧
    SearchServer (.file none) (mkRequest [49] [120] [] [] []) =
      some ⟨400, .text "\x7b\"error\": \"no offset in request\"\x7d"⟩ ∧
    SearchServer (.file (some sampleRows)) (mkRequest [49] [48] [34, 34] [] []) =
      some ⟨400, .text "\x7b\"error\": \"no order_by in request\"\x7d"⟩ :=
  ⟨by decide,
    (validation_first_match none (mkRequest [] [120] [] [] []) (by decide)).1 (by decide),
    (validation_first_match none (mkRequest [49] [120] [] [] []) (by decide)).2.1
      (by decide) (by decide),
    (validation_first_match (some sampleRows) (mkRequest [49] [48] [34, 34] [] [])
      (by decide)).2.2 (by decide) (by decide) (by decide)⟩

/-- C11 (the code departs from it): the answer to the token "bad" has status 401
and the plain text `Bad AccessToken` as its body, which is not an error
envelope; every other response whose status is not 200 has status 400 and an
error envelope as its body. -/
theorem unauthorized_body_not_envelope (decoded : Option (List row))
    (limit offset orderBy query orderField : GoString) :
    SearchServer (.file decoded) ⟨strBad, limit, offset, orderBy, query, orderField⟩ =
      some ⟨401, .text "Bad AccessToken"⟩ ∧
    isErrorEnvelope (.text "Bad AccessToken") = false ∧
    (∀ data r resp, SearchServer data r = some resp → resp.status ≠ 200 →
      resp.status ≠ 401 → isErrorEnvelope resp.body = true) := by
  refine ⟨by simp [SearchServer], by decide, ?_⟩
  intro data r resp h h200 h401
  rcases SearchServer_cases data r resp h with ⟨_, _, hr⟩ | ⟨_, he, _⟩ | ⟨hs, _, _⟩
  · subst hr; exact absurd rfl h401
  · exact he
  · exact absurd hs h200

/-- C12: with a readable dataset, the response has status 401 exactly when the
AccessToken header is "bad"; any other token (the empty string of an absent
header included) never yields 401. -/
theorem unauthorized_iff_bad_token (decoded : Option (List row)) (r : Request) :
    (∃ resp, SearchServer (.file decoded) r = some resp ∧ resp.status = 401) ↔
      r.AccessToken = strBad := by
  constructor
  · rintro ⟨resp, h, hst⟩
    rcases SearchServer_cases _ r resp h with ⟨ht, _, _⟩ | ⟨hs, _, _⟩ | ⟨hs, _, _⟩
    · exact ht
    · rw [hs] at hst; exact absurd hst (by decide)
    · rw [hs] at hst; exact absurd hst (by decide)
  · intro ht
    exact ⟨⟨401, .text "Bad AccessToken"⟩, by simp [SearchServer, ht], rfl⟩

/-- C13: for orderBy 1 or -1 and an order field among "", "Id", "Name", "Age", the
sort stage is idempotent: applied to its own output with the same parameters it
returns that output unchanged. -/
theorem sortStage_idempotent (req : SearchRequest) (users : List User)
    (hBy : req.OrderBy = 1 ∨ req.OrderBy = -1) (hField : req.OrderField ∈ orderFields) :
    ∃ out, sortStage req users = .ok out ∧ sortStage req out = .ok out := by
  obtain ⟨less, h, hasymm, hneg, _, _⟩ := sortStage_uniform req hBy hField
  refine ⟨SliceStable less users, h users, ?_⟩
  rw [h (SliceStable less users), SliceStable_idem less hasymm hneg users]

theorem sortStage_idempotent_witness :
    ((-1 : Int) = 1 ∨ (-1 : Int) = -1) ∧ strAge ∈ orderFields ∧
    ∃ out, sortStage ⟨3, 0, [], strAge, -1⟩ sampleUsers = .ok out ∧
      sortStage ⟨3, 0, [], strAge, -1⟩ out = .ok out :=
  ⟨Or.inr rfl, by decide,
    sortStage_idempotent ⟨3, 0, [], strAge, -1⟩ sampleUsers (Or.inr rfl) (by decide)⟩

/-- C14: a request with the empty order field and the same request with the order
field "Name" get the same response (or both make the handler panic), for every
order_by, in particular for 1 and -1. -/
theorem empty_field_as_name (data : Dataset)
    (token limit offset orderBy query : GoString) :
    SearchServer data ⟨token, limit, offset, orderBy, query, []⟩ =
      SearchServer data ⟨token, limit, offset, orderBy, query, strName⟩ := by
  have hrespond : ∀ (l o ob : Int) (rows : List row),
      respond ⟨l, o, query, [], ob⟩ rows = respond ⟨l, o, query, strName, ob⟩ rows := by
    intro l o ob rows
    unfold respond
    rw [filterStage_congr ⟨l, o, query, [], ob⟩ ⟨l, o, query, strName, ob⟩ rows rfl,
      sortStage_empty_name]
    simp only [paginate_congr ⟨l, o, query, [], ob⟩ ⟨l, o, query, strName, ob⟩ _ rfl rfl]
  unfold SearchServer
  cases data with
  | missing => rfl
  | file decoded =>
    simp only
    split
    · rfl
    · split
      · rfl
      · split
        · rfl
        · split
          · rfl
          · cases decoded with
            | none => rfl
            | some rows => exact hrespond _ _ _ rows

/-- C15: for orderBy = 0 and every order field, known or not, the sort stage
writes no fault and returns the filtered sequence as it is, so the handler
paginates the records in dataset order. -/
theorem sort_passthrough (limit offset : Int) (query orderField : GoString)
    (users : List User) :
    sortStage ⟨limit, offset, query, orderField, 0⟩ users = .ok users ∧
    ∀ rows, respond ⟨limit, offset, query, orderField, 0⟩ rows =
      (paginate ⟨limit, offset, query, orderField, 0⟩
        (filterStage ⟨limit, offset, query, orderField, 0⟩ rows)).map
        (fun page => ⟨200, .users page⟩) := by
  have h : ∀ us, sortStage ⟨limit, offset, query, orderField, 0⟩ us = .ok us := by
    intro us; simp [sortStage]
  refine ⟨h users, ?_⟩
  intro rows
  unfold respond
  rw [h]
  dsimp only
  cases paginate ⟨limit, offset, query, orderField, 0⟩
    (filterStage ⟨limit, offset, query, orderField, 0⟩ rows) <;> rfl

/-- C16: when the dataset cannot be read, every request, whatever its token and
parameters, is answered with status 400 and body
`{"error": "no such file or directory"}`. -/
theorem missing_dataset (r : Request) :
    SearchServer .missing r =
      some ⟨400, .text "\x7b\"error\": \"no such file or directory\"\x7d"⟩ := rfl

/-- C17 as stated fails: `limit=-9223372036854775808&offset=-1&order_by=0` on the
three sample rows is answered with status 200 and all three records, the whole
filtered and sorted sequence (the sum wraps to the greatest `int`, so the slice
is not cut); no record lies beyond the returned window, so the flag of the
response is false, and yet the length 3 is greater than offset + limit. -/
theorem hasMore_underflow :
    Atoi [45, 57, 50, 50, 51, 51, 55, 50, 48, 51, 54, 56, 53, 52, 55, 55, 53, 56, 48, 56] =
      some (-9223372036854775808) ∧
    Atoi [45, 49] = some (-1) ∧
    SearchServer (.file (some sampleRows))
      (mkRequest [45, 57, 50, 50, 51, 51, 55, 50, 48, 51, 54, 56, 53, 52, 55, 55, 53, 56, 48, 56]
        [45, 49] [48] [] []) = some ⟨200, .users sampleUsers⟩ ∧
    sortStage ⟨-9223372036854775808, -1, [], [], 0⟩
      (filterStage ⟨-9223372036854775808, -1, [], [], 0⟩ sampleRows) = .ok sampleUsers ∧
    (searchResponse ⟨-9223372036854775808, -1, [], [], 0⟩ sampleUsers sampleUsers).NextPage =
      false ∧
    (sampleUsers.length : Int) > -1 + -9223372036854775808 := by
  refine ⟨by decide, by decide, ?_, rfl, by decide, by decide⟩
  rw [SearchServer_valid sampleRows _ (-9223372036854775808) (-1) 0 (by decide) (by decide)
    (by decide) (by decide)]
  decide

/-- C17 (amended): for every request answered with status 200 whose
offset + limit is not below the `int` range (as whenever limit >= 0 and
offset >= 0), the response carries the window of the filtered and sorted
sequence from `windowStart` to `windowEnd`, and its `hasMore` flag (a record of
that sequence lies beyond the upper bound of the returned window) is true
exactly when the sequence is longer than offset + limit. -/
theorem hasMore_iff_longer (data : Dataset) (r : Request) (resp : Response)
    (limit offset : Int)
    (hl : Atoi r.limit = some limit) (ho : Atoi r.offset = some offset)
    (hmin : minInt ≤ offset + limit)
    (h : SearchServer data r = some resp) (hst : resp.status = 200) :
    ∃ rows orderBy sorted page,
      data = .file (some rows) ∧ Atoi r.order_by = some orderBy ∧
      sortStage ⟨limit, offset, r.query, r.order_field, orderBy⟩
        (filterStage ⟨limit, offset, r.query, r.order_field, orderBy⟩ rows) = .ok sorted ∧
      resp = ⟨200, .users page⟩ ∧
      (searchResponse ⟨limit, offset, r.query, r.order_field, orderBy⟩ sorted page).Users =
        (sorted.take
          (windowEnd ⟨limit, offset, r.query, r.order_field, orderBy⟩ sorted).toNat).drop
        (windowStart ⟨limit, offset, r.query, r.order_field, orderBy⟩ sorted).toNat ∧
      ((searchResponse ⟨limit, offset, r.query, r.order_field, orderBy⟩ sorted page).NextPage =
        true ↔ (sorted.length : Int) > offset + limit) := by
  obtain ⟨rows, limit2, offset2, orderBy, sorted, page, hdata, _, hl2, ho2, hb, hs, hp, hresp⟩ :=
    SearchServer_success data r resp h hst
  rw [hl] at hl2; rw [ho] at ho2
  injection hl2 with hl2; injection ho2 with ho2
  subst hl2; subst ho2
  refine ⟨rows, orderBy, sorted, page, hdata, hb, hs, hresp, ?_⟩
  -- the sum does not overflow, or the slice expression would have panicked
  have hsum : addInt limit offset = limit + offset := by
    by_contra hne
    have hneg : addInt limit offset < 0 := by
      unfold addInt wrapInt at hne ⊢
      have hA := (Atoi_inRange _ _ hl).2
      have hB := (Atoi_inRange _ _ ho).2
      unfold maxInt at hA hB
      unfold minInt at hmin
      omega
    unfold paginate sliceUsers at hp
    simp only at hp
    rw [if_pos (by omega), if_neg (by omega)] at hp
    exact Option.noConfusion hp
  unfold searchResponse hasMore windowEnd windowStart
  unfold paginate sliceUsers at hp
  simp only [hsum, decide_eq_true_eq] at hp ⊢
  by_cases hge : (sorted.length : Int) ≥ limit + offset
  · by_cases hb2 : 0 ≤ offset ∧ offset ≤ limit + offset ∧ limit + offset ≤ (sorted.length : Int)
    · rw [if_pos hge, if_pos hb2] at hp
      injection hp with hp
      rw [if_pos hge, if_pos hge]
      refine ⟨?_, by omega⟩
      rw [← hp, List.take_drop]
      congr 2
      omega
    · rw [if_pos hge, if_neg hb2] at hp
      exact Option.noConfusion hp
  · rw [if_neg hge] at hp
    injection hp with hp
    rw [if_neg hge, if_neg hge]
    refine ⟨?_, by omega⟩
    rw [← hp]
    simp

theorem hasMore_iff_longer_witness :
    Atoi (mkRequest [49] [48] [48] [] []).limit = some 1 ∧
    Atoi (mkRequest [49] [48] [48] [] []).offset = some 0 ∧
    minInt ≤ (0 : Int) + 1 ∧
    ∃ rows orderBy sorted page,
      Dataset.file (some sampleRows) = .file (some rows) ∧
      Atoi (mkRequest [49] [48] [48] [] []).order_by = some orderBy ∧
      sortStage ⟨1, 0, (mkRequest [49] [48] [48] [] []).query,
          (mkRequest [49] [48] [48] [] []).order_field, orderBy⟩
        (filterStage ⟨1, 0, (mkRequest [49] [48] [48] [] []).query,
          (mkRequest [49] [48] [48] [] []).order_field, orderBy⟩ rows) = .ok sorted ∧
      (⟨200, .users (sampleUsers.take 1)⟩ : Response) = ⟨200, .users page⟩ ∧
      (searchResponse ⟨1, 0, (mkRequest [49] [48] [48] [] []).query,
          (mkRequest [49] [48] [48] [] []).order_field, orderBy⟩ sorted page).Users =
        (sorted.take
          (windowEnd ⟨1, 0, (mkRequest [49] [48] [48] [] []).query,
            (mkRequest [49] [48] [48] [] []).order_field, orderBy⟩ sorted).toNat).drop
        (windowStart ⟨1, 0, (mkRequest [49] [48] [48] [] []).query,
          (mkRequest [49] [48] [48] [] []).order_field, orderBy⟩ sorted).toNat ∧
      ((searchResponse ⟨1, 0, (mkRequest [49] [48] [48] [] []).query,
          (mkRequest [49] [48] [48] [] []).order_field, orderBy⟩ sorted page).NextPage =
        true ↔ (sorted.length : Int) > 0 + 1) :=
  ⟨by decide, by decide, by decide,
    hasMore_iff_longer (.file (some sampleRows)) (mkRequest [49] [48] [48] [] [])
      ⟨200, .users (sampleUsers.take 1)⟩ 1 0 (by decide) (by decide) (by decide)
      sample_first_page rfl⟩

/-- C18: the classification of the client is a function of the transport outcome
(total and deterministic), the first matching rule deciding: a timeout gives an
error containing "timeout"; status 500 "SearchServer fatal error"; status 401
"Bad AccessToken"; status 400 with a body that is no envelope "cant unpack error
json"; status 400 with the envelope message "ErrorBadOrderField" "OrderFeld";
status 400 with another envelope message "unknown bad request error" together
with that message (so "no such file or directory" for the missing dataset);
status 200 with a body that is no record list "cant unpack result json"; any
other status, and a transport failure, "unknown error"; status 200 with a record
list gives the records and no error, and is the only outcome with a result. Of
result and error exactly one is returned. -/
theorem classify_rules :
    (classify .timeout = ⟨none, some .Timeout⟩ ∧
      textContains (errorText .Timeout) "timeout" = true) ∧
    ((∀ e u, classify (.reply 500 e u) = ⟨none, some .ServerFault⟩) ∧
      textContains (errorText .ServerFault) "SearchServer fatal error" = true) ∧
    ((∀ e u, classify (.reply 401 e u) = ⟨none, some .BadAccessToken⟩) ∧
      textContains (errorText .BadAccessToken) "Bad AccessToken" = true) ∧
    ((∀ u, classify (.reply 400 none u) = ⟨none, some .BadEnvelope⟩) ∧
      textContains (errorText .BadEnvelope) "cant unpack error json" = true) ∧
    ((∀ u, classify (.reply 400 (some "ErrorBadOrderField") u) = ⟨none, some .BadOrderField⟩) ∧
      textContains (errorText .BadOrderField) "OrderFeld" = true) ∧
    (∀ msg u, msg ≠ "ErrorBadOrderField" →
      classify (.reply 400 (some msg) u) = ⟨none, some (.BadRequestGeneric msg)⟩ ∧
      textContains (errorText (.BadRequestGeneric msg)) "unknown bad request error" = true ∧
      textContains (errorText (.BadRequestGeneric msg)) msg = true) ∧
    (∀ u, ∃ e, classify (.reply 400 (some "no such file or directory") u) = ⟨none, some e⟩ ∧
      textContains (errorText e) "no such file or directory" = true) ∧
    ((∀ e, classify (.reply 200 e none) = ⟨none, some .BadResultBody⟩) ∧
      textContains (errorText .BadResultBody) "cant unpack result json" = true) ∧
    ((∀ status e u, status ≠ 500 → status ≠ 401 → status ≠ 400 → status ≠ 200 →
        classify (.reply status e u) = ⟨none, some .UnknownStatus⟩) ∧
      classify .failure = ⟨none, some .UnknownStatus⟩ ∧
      textContains (errorText .UnknownStatus) "unknown error" = true) ∧
    (∀ e users, classify (.reply 200 e (some users)) = ⟨some users, none⟩) ∧
    (∀ outcome users, (classify outcome).result = some users ↔
      ∃ e, outcome = .reply 200 e (some users)) ∧
    (∀ outcome, ((classify outcome).result = none ∧ (classify outcome).error ≠ none) ∨
      ((classify outcome).result ≠ none ∧ (classify outcome).error = none)) := by
  have hgeneric : ∀ msg : String,
      textContains (errorText (.BadRequestGeneric msg)) "unknown bad request error" = true ∧
      textContains (errorText (.BadRequestGeneric msg)) msg = true := by
    intro msg
    unfold textContains errorText
    rw [decide_eq_true_eq, decide_eq_true_eq, String.data_append]
    exact ⟨List.IsInfix.trans (by decide) (List.prefix_append _ _).isInfix,
      (List.suffix_append _ _).isInfix⟩
  have hcases : ∀ outcome, (∃ e, classify outcome = ⟨none, some e⟩) ∨
      (∃ env users, outcome = .reply 200 env (some users) ∧
        classify outcome = ⟨some users, none⟩) := by
    intro outcome
    cases outcome with
    | timeout => exact Or.inl ⟨_, rfl⟩
    | failure => exact Or.inl ⟨_, rfl⟩
    | reply status e u =>
      simp only [classify]
      by_cases h500 : status = 500
      · exact Or.inl ⟨_, by rw [if_pos h500]⟩
      · by_cases h401 : status = 401
        · exact Or.inl ⟨_, by rw [if_neg h500, if_pos h401]⟩
        · by_cases h400 : status = 400
          · cases e with
            | none => exact Or.inl ⟨_, by rw [if_neg h500, if_neg h401, if_pos h400]⟩
            | some msg =>
              by_cases hmsg : msg = "ErrorBadOrderField"
              · exact Or.inl ⟨.BadOrderField, by
                  rw [if_neg h500, if_neg h401, if_pos h400]; simp only [hmsg, if_true]⟩
              · exact Or.inl ⟨.BadRequestGeneric msg, by
                  rw [if_neg h500, if_neg h401, if_pos h400]; simp only [hmsg, if_false]⟩
          · by_cases h200 : status = 200
            · cases u with
              | none =>
                exact Or.inl ⟨_, by rw [if_neg h500, if_neg h401, if_neg h400, if_pos h200]⟩
              | some users =>
                subst h200
                exact Or.inr ⟨e, users, rfl, rfl⟩
            · exact Or.inl ⟨_, by rw [if_neg h500, if_neg h401, if_neg h400, if_neg h200]⟩
  refine ⟨⟨rfl, by decide⟩, ⟨fun _ _ => rfl, by decide⟩, ⟨fun _ _ => rfl, by decide⟩,
    ⟨fun _ => rfl, by decide⟩, ⟨fun _ => rfl, by decide⟩, ?_, ?_, ⟨fun _ => rfl, by decide⟩,
    ⟨?_, rfl, by decide⟩, fun _ _ => rfl, ?_, ?_⟩
  · intro msg u hmsg
    refine ⟨by simp [classify, hmsg], hgeneric msg⟩
  · intro u
    exact ⟨.BadRequestGeneric "no such file or directory", rfl, (hgeneric _).2⟩
  · intro status e u h500 h401 h400 h200
    simp [classify, h500, h401, h400, h200]
  · intro outcome users
    constructor
    · intro h
      rcases hcases outcome with ⟨e, he⟩ | ⟨env, us, ho, hc⟩
      · rw [he] at h; exact Option.noConfusion h
      · rw [hc] at h
        injection h with h
        subst h
        exact ⟨env, ho⟩
    · rintro ⟨e, rfl⟩
      rfl
  · intro outcome
    rcases hcases outcome with ⟨e, he⟩ | ⟨env, us, _, hc⟩
    · left; rw [he]; exact ⟨rfl, by simp⟩
    · right; rw [hc]; exact ⟨by simp, rfl⟩

/-- C19: for every request with limit <= 0 the client's FindUsers fails with an
error containing "limit must be > 0", and for every request that passes the
limit check and has offset < 0 it fails with "offset must be > 0"; in both cases
nothing is handed to the transport and the result is the same whatever the
transport would answer. A request with limit > 0 and offset >= 0 is handed to
the transport once. -/
theorem local_rejection (transport : SearchRequest → TransportOutcome) (req : SearchRequest) :
    (req.Limit ≤ 0 → FindUsers transport req = (⟨none, some .LimitInvalid⟩, [])) ∧
    (0 < req.Limit → req.Offset < 0 →
      FindUsers transport req = (⟨none, some .OffsetInvalid⟩, [])) ∧
    (0 < req.Limit → 0 ≤ req.Offset →
      ∃ sent, FindUsers transport req = (classify (transport sent), [sent])) ∧
    textContains (errorText .LimitInvalid) "limit must be > 0" = true ∧
    textContains (errorText .OffsetInvalid) "offset must be > 0" = true := by
  refine ⟨?_, ?_, ?_, by decide, by decide⟩
  · intro h
    simp [FindUsers, normalize, h]
  · intro h1 h2
    have h3 : ¬ req.Limit ≤ 0 := by omega
    simp [FindUsers, normalize, h2, h3]
  · intro h1 h2
    have h3 : ¬ req.Limit ≤ 0 := by omega
    have h4 : ¬ req.Offset < 0 := by omega
    unfold FindUsers normalize
    rw [if_neg h3, if_neg h4]
    by_cases h5 : req.Limit > 25
    · rw [if_pos h5]; exact ⟨_, rfl⟩
    · rw [if_neg h5]; exact ⟨_, rfl⟩

/-- C20: the record built from a row copies its Id, Age, About and Gender and has
the name `FirstName + " " + LastName`; every record of the filter stage is built
so; and with the query `FirstName + " " + LastName` of a row of the dataset the
filter stage keeps the record of that row, whose Name is the query. -/
theorem record_of_row (r : row) (rows : List row) (limit offset orderBy : Int)
    (orderField : GoString) (hr : r ∈ rows) :
    ((toUser r).Id = r.ID ∧ (toUser r).Age = r.Age ∧ (toUser r).About = r.About ∧
      (toUser r).Gender = r.Gender ∧
      (toUser r).Name = r.FirstName ++ strSpace ++ r.LastName) ∧
    (∀ req, ∀ u ∈ filterStage req rows, ∃ r2 ∈ rows, u = toUser r2) ∧
    toUser r ∈ filterStage
      ⟨limit, offset, r.FirstName ++ strSpace ++ r.LastName, orderField, orderBy⟩ rows ∧
    (toUser r).Name = r.FirstName ++ strSpace ++ r.LastName := by
  refine ⟨⟨rfl, rfl, rfl, rfl, rfl⟩, ?_, ?_, rfl⟩
  · intro req u hu
    unfold filterStage at hu
    rw [filterLoop_eq, List.nil_append] at hu
    have hmem := (List.mem_filter.1 hu).1
    obtain ⟨r2, hr2, rfl⟩ := List.mem_map.1 hmem
    exact ⟨r2, hr2, rfl⟩
  · unfold filterStage
    rw [filterLoop_eq, List.nil_append]
    refine List.mem_filter.2 ⟨List.mem_map.2 ⟨r, hr, rfl⟩, ?_⟩
    have hname : Contains (toUser r).Name (r.FirstName ++ strSpace ++ r.LastName) = true :=
      (contains_iff _ _).2 (List.infix_refl _)
    simp only [hname, Bool.or_true, Bool.true_or]

theorem record_of_row_witness :
    mkRow 1 21 [72] [77] [83, 105, 116] ∈ sampleRows ∧
    toUser (mkRow 1 21 [72] [77] [83, 105, 116]) ∈
      filterStage ⟨3, 0, [72, 32, 77], [], 0⟩ sampleRows ∧
    (toUser (mkRow 1 21 [72] [77] [83, 105, 116])).Name = [72, 32, 77] :=
  ⟨by decide,
    (record_of_row (mkRow 1 21 [72] [77] [83, 105, 116]) sampleRows 3 0 0 [] (by decide)).2.2.1,
    (record_of_row (mkRow 1 21 [72] [77] [83, 105, 116]) sampleRows 3 0 0 []
      (by decide)).2.2.2⟩

/-- C21: the disjunct `req.Query == ""` of the filter predicate is redundant: for
every record and every query the predicate with it equals the predicate without
it, the filter stage without the special case is the filter stage, and the empty
query keeps every record. -/
theorem empty_query_disjunct_redundant (req : SearchRequest) (rows : List row) :
    (∀ about name q : GoString,
      (Contains about q || Contains name q || q == []) =
        (Contains about q || Contains name q)) ∧
    filterStagePlain req rows = filterStage req rows ∧
    (∀ (limit offset orderBy : Int) (orderField : GoString),
      filterStage ⟨limit, offset, [], orderField, orderBy⟩ rows = rows.map toUser) := by
  have hpred : ∀ about name q : GoString,
      (Contains about q || Contains name q || q == []) =
        (Contains about q || Contains name q) := by
    intro about name q
    by_cases hq : q = []
    · subst hq; simp [contains_empty]
    · have : (q == []) = false := by simpa using hq
      rw [this, Bool.or_false]
  refine ⟨hpred, ?_, ?_⟩
  · unfold filterStagePlain filterStage
    rw [filterLoopPlain_eq, filterLoop_eq]
    congr 1
    apply List.filter_congr
    intro u _
    exact (hpred u.About u.Name req.Query).symm
  · intro limit offset orderBy orderField
    unfold filterStage
    rw [filterLoop_eq, List.nil_append]
    simp

/-- C22: when no two records of the sequence have the same key under the order
field, the descending sort (orderBy = -1) returns the reverse of the ascending
sort (orderBy = 1); and the three sample records, two of which have the age 22,
are a sequence whose descending sort by Age is not the reverse of the ascending
one. -/
theorem descending_is_reverse (limit offset : Int) (query orderField : GoString)
    (users : List User) (hField : orderField ∈ orderFields)
    (hdistinct : users.Pairwise (fun a b => sameKey orderField a b = false)) :
    (∃ asc desc, sortStage ⟨limit, offset, query, orderField, 1⟩ users = .ok asc ∧
      sortStage ⟨limit, offset, query, orderField, -1⟩ users = .ok desc ∧
      desc = asc.reverse) ∧
    (∃ dup asc desc, ¬ dup.Pairwise (fun a b => sameKey strAge a b = false) ∧
      sortStage ⟨limit, offset, query, strAge, 1⟩ dup = .ok asc ∧
      sortStage ⟨limit, offset, query, strAge, -1⟩ dup = .ok desc ∧
      desc ≠ asc.reverse) := by
  constructor
  · obtain ⟨lessAsc, hAsc, hasymm, hneg, hleAsc, _⟩ :=
      sortStage_uniform ⟨limit, offset, query, orderField, 1⟩ (Or.inl rfl) hField
    obtain ⟨lessDesc, hDesc, _, _, hleDesc, _⟩ :=
      sortStage_uniform ⟨limit, offset, query, orderField, -1⟩ (Or.inr rfl) hField
    simp only [if_true] at hleAsc
    have hne : ¬ ((-1 : Int) = 1) := by decide
    simp only [hne, if_false] at hleDesc
    have hflip : lessDesc = fun a b => lessAsc b a := by
      funext a b
      have h1 := hleDesc a b
      have h2 := hleAsc b a
      cases hd : lessDesc a b <;> cases ha : lessAsc b a
      · rfl
      · exact absurd (h2.2 (h1.1 hd)) (by rw [ha]; exact Bool.noConfusion)
      · exact absurd (h1.2 (h2.1 ha)) (by rw [hd]; exact Bool.noConfusion)
      · rfl
    refine ⟨_, _, hAsc users, hDesc users, ?_⟩
    rw [hflip]
    apply SliceStable_flip lessAsc hasymm hneg
    refine hdistinct.imp ?_
    intro a b hab
    by_contra hcon
    have hab1 : lessAsc a b = false := by
      cases h : lessAsc a b
      · rfl
      · exact absurd (Or.inl h) hcon
    have hba1 : lessAsc b a = false := by
      cases h : lessAsc b a
      · rfl
      · exact absurd (Or.inr h) hcon
    have := sameKey_of_keyLe orderField a b ((hleAsc b a).1 hba1) ((hleAsc a b).1 hab1)
    rw [this] at hab
    exact Bool.noConfusion hab
  · refine ⟨sampleUsers, SliceStable (fun a b => decide (a.Age < b.Age)) sampleUsers,
      SliceStable (fun a b => decide (a.Age > b.Age)) sampleUsers, by decide, rfl, rfl,
      by decide⟩

theorem descending_is_reverse_witness :
    strId ∈ orderFields ∧ sampleUsers.Pairwise (fun a b => sameKey strId a b = false) ∧
    ∃ asc desc, sortStage ⟨3, 0, [], strId, 1⟩ sampleUsers = .ok asc ∧
      sortStage ⟨3, 0, [], strId, -1⟩ sampleUsers = .ok desc ∧
      desc = asc.reverse :=
  ⟨by decide, by decide,
    (descending_is_reverse 3 0 [] strId sampleUsers (by decide) (by decide)).1⟩

/-- C23: filtering and sorting commute: for an order field among "", "Id",
"Name", "Age" and orderBy -1, 0 or 1, the sort stage succeeds on the records of
all rows, and sorting the filtered records (what the handler does) gives the
selection, by the filter's predicate, from the sorted records of all rows. -/
theorem filter_sort_commute (req : SearchRequest) (rows : List row)
    (hBy : req.OrderBy = -1 ∨ req.OrderBy = 0 ∨ req.OrderBy = 1)
    (hField : req.OrderField ∈ orderFields) :
    filterStage req rows = (rows.map toUser).filter (matchesQuery req.Query) ∧
    ∃ sortedAll, sortStage req (rows.map toUser) = .ok sortedAll ∧
      sortStage req (filterStage req rows) = .ok (sortedAll.filter (matchesQuery req.Query)) := by
  refine ⟨filterStage_eq_filter req rows, ?_⟩
  rw [filterStage_eq_filter]
  by_cases h0 : req.OrderBy = 0
  · have h : ∀ us, sortStage req us = .ok us := by
      intro us; simp [sortStage, h0]
    exact ⟨_, h _, h _⟩
  · have hBy2 : req.OrderBy = 1 ∨ req.OrderBy = -1 := by omega
    obtain ⟨less, hs, hasymm, hneg, _, _⟩ := sortStage_uniform req hBy2 hField
    refine ⟨_, hs _, ?_⟩
    rw [hs, SliceStable_filter_comm less hasymm hneg]

theorem filter_sort_commute_witness :
    ((1 : Int) = -1 ∨ (1 : Int) = 0 ∨ (1 : Int) = 1) ∧ strAge ∈ orderFields ∧
    filterStage ⟨3, 0, [32], strAge, 1⟩ sampleRows =
      (sampleRows.map toUser).filter (matchesQuery [32]) ∧
    ∃ sortedAll, sortStage ⟨3, 0, [32], strAge, 1⟩ (sampleRows.map toUser) = .ok sortedAll ∧
      sortStage ⟨3, 0, [32], strAge, 1⟩ (filterStage ⟨3, 0, [32], strAge, 1⟩ sampleRows) =
        .ok (sortedAll.filter (matchesQuery [32])) :=
  ⟨by decide, by decide,
    filter_sort_commute ⟨3, 0, [32], strAge, 1⟩ sampleRows (by decide) (by decide)⟩

/-- C24: two requests that differ only in the AccessToken header, neither value
being "bad" (an absent header reads as the empty string), get the same outcome
on the same dataset: the same status and body, or a panic for both. -/
theorem token_only_compared (data : Dataset)
    (token1 token2 limit offset orderBy query orderField : GoString)
    (h1 : token1 ≠ strBad) (h2 : token2 ≠ strBad) :
    SearchServer data ⟨token1, limit, offset, orderBy, query, orderField⟩ =
      SearchServer data ⟨token2, limit, offset, orderBy, query, orderField⟩ := by
  unfold SearchServer
  cases data with
  | missing => rfl
  | file decoded => simp only [if_neg h1, if_neg h2]

theorem token_only_compared_witness :
    ([] : GoString) ≠ strBad ∧ ([120] : GoString) ≠ strBad ∧
    SearchServer (.file (some sampleRows)) ⟨[], [50], [48], [49], [], strAge⟩ =
      SearchServer (.file (some sampleRows)) ⟨[120], [50], [48], [49], [], strAge⟩ :=
  ⟨by decide, by decide,
    token_only_compared (.file (some sampleRows)) [] [120] [50] [48] [49] [] strAge
      (by decide) (by decide)⟩

end Coverage
